import Mathlib

/-!
Shallow embedding of `src/packages/ripple-jsx/src/index.js`, the Ripple JSX
runtime adapter.  JS values are modeled by the inductive `Value`; the closures
the adapter produces (`elementWrapper`, `componentWrapper`, and the children
component returned by `createChildrenComponent`) are modeled syntactically by
`Closure` and executed by the fuel-indexed interpreter `run` over an explicit
DOM/render-context state `St`.  The host primitives imported from
`ripple/internal/client` (`set_attribute`, `append`, `active_block`) are not in
the repository; they are modeled from the spec, as marked below.
-/

/-- DOM namespace chosen by `createElement` (index.js lines 89-126). -/
inductive Ns where
  | html
  | svg
  | mathml
deriving DecidableEq

mutual
/-- A JavaScript value, restricted to the shapes the adapter inspects:
`null`, `undefined`, booleans, strings, numbers (modeled as integers; the
claims do not exercise float-specific behavior), arrays, references to DOM
nodes (`child.nodeType` duck test), adapter-produced closures, and opaque
external functions known only by their declared arity (`fn.length`). -/
inductive Value where
  | vNull
  | vUndefined
  | vBool (b : Bool)
  | vStr (s : String)
  | vNum (n : Int)
  | vArr (vs : List Value)
  | vNode (id : Nat)
  | vClosure (c : Closure)
  | vFun (arity : Nat)

/-- The closures produced by the adapter itself:
`elementWrapper` (index.js 243-270) capturing the tag and constructor props,
`componentWrapper` (index.js 221-239) capturing the callable `type` and props,
and the children component returned by `createChildrenComponent`
(index.js 133-140), which captures the already-flattened child list. -/
inductive Closure where
  | elementWrapper (tag : String) (props : List (String × Value))
  | componentWrapper (type : Value) (props : List (String × Value))
  | childrenComponent (flattened : List Value)
end

/-- A JS object as an insertion-ordered association list (JS string keys are
unique in object literals; all operations below preserve that). -/
abbrev Obj := List (String × Value)

/-- `typeof v === 'function'`. -/
def isCallable : Value → Bool
  | .vClosure _ => true
  | .vFun _ => true
  | _ => false

/-- `typeof v === 'string'`. -/
def isString : Value → Bool
  | .vStr _ => true
  | _ => false

/-- `v == null` (loose equality: true exactly for `null` and `undefined`). -/
def isNullish : Value → Bool
  | .vNull => true
  | .vUndefined => true
  | _ => false

/-- The filter used by `flattenChildren` (index.js 67 and 72):
`v === null || v === undefined || v === false`. -/
def isFilteredChild : Value → Bool
  | .vNull => true
  | .vUndefined => true
  | .vBool false => true
  | _ => false

/-- `Array.isArray v`. -/
def isArrayV : Value → Bool
  | .vArr _ => true
  | _ => false

/-- JS truthiness of the values in our model (`0`, `''`, `null`, `undefined`,
and `false` are falsy; objects, arrays and functions are truthy). -/
def truthy : Value → Bool
  | .vNull => false
  | .vUndefined => false
  | .vBool b => b
  | .vStr s => !(s.isEmpty)
  | .vNum n => !(n == 0)
  | _ => true

/-- Declared parameter count (`fn.length`) of a callable value.  The adapter's
own closures declare 2 (`elementWrapper(anchor, wrapperProps)`) or 3
(`componentWrapper` / `children` take `(anchor, props, block)`) parameters. -/
def arityOf : Value → Nat
  | .vFun a => a
  | .vClosure (.elementWrapper _ _) => 2
  | .vClosure (.componentWrapper _ _) => 3
  | .vClosure (.childrenComponent _) => 3
  | _ => 0

/-- `key.startsWith('on')` (index.js 155). -/
def startsOn (k : String) : Bool :=
  match k.data with
  | 'o' :: 'n' :: _ => true
  | _ => false

/-- `key.slice(2).toLowerCase()` (index.js 157): the event name derived from an
event-handler prop key.  `Char.toLower` models `toLowerCase` on the ASCII
range exercised by attribute names. -/
def eventNameOf (k : String) : String :=
  String.mk ((k.data.drop 2).map Char.toLower)

/-- The fixed JSX→HTML attribute-name table `MAPPED_ATTRIBUTES`
(index.js 34-43). -/
def MAPPED_ATTRIBUTES : List (String × String) :=
  [("className", "class"),
   ("htmlFor", "for"),
   ("tabIndex", "tabindex"),
   ("readOnly", "readonly"),
   ("autoComplete", "autocomplete"),
   ("autoFocus", "autofocus"),
   ("contentEditable", "contenteditable"),
   ("noValidate", "novalidate")]

/-- Decompose a key as the prefix `on`, its third character and the rest,
when the key has at least three characters and starts with `on` (the shape
the regex `/^on([A-Z])/` can match at all). -/
def onSplit (k : String) : Option (Char × List Char) :=
  match k.data with
  | a :: b :: c :: rest => if a == 'o' && b == 'n' then some (c, rest) else none
  | _ => none

/-- `key.replace(/^on([A-Z])/, (_, letter) => 'on' + letter.toLowerCase())`
(index.js 55): if the key starts with `on` followed by an upper-case letter,
lower-case that one letter only; otherwise return the key unchanged. -/
def replaceOnUpper (k : String) : String :=
  match onSplit k with
  | some (c, rest) =>
      if c.isUpper then String.mk ('o' :: 'n' :: c.toLower :: rest) else k
  | none => k

/-- `jsxKeyToHtml` (index.js 50-58).  `MAPPED_ATTRIBUTES.get(key) || ...`:
the table's values are all non-empty strings, so the JS falsy test coincides
with the lookup-miss test. -/
def jsxKeyToHtml (k : String) : String :=
  match MAPPED_ATTRIBUTES.lookup k with
  | some v => v
  | none => replaceOnUpper k

/-- First-match lookup in an object (JS property read). -/
def lookupObj : Obj → String → Option Value
  | [], _ => none
  | (k₀, v₀) :: rest, k => if k₀ = k then some v₀ else lookupObj rest k

/-- JS property assignment `o[k] = v`: overwrite in place if the key exists,
otherwise append at the end (insertion order). -/
def setObj : Obj → String → Value → Obj
  | [], k, v => [(k, v)]
  | (k₀, v₀) :: rest, k, v =>
      if k₀ = k then (k₀, v) :: rest else (k₀, v₀) :: setObj rest k v

/-- JS object spread `{...a, ...b}`: keys of `a` keep their positions with
values overridden by `b` where present; keys of `b` absent from `a` are
appended in `b`'s order. -/
def spreadMerge (a b : Obj) : Obj :=
  (a.map fun p => (p.1, match lookupObj b p.1 with | some w => w | none => p.2))
    ++ b.filter fun p => (lookupObj a p.1).isNone

mutual
/-- `flattenChildren` (index.js 65-82): the non-array branch drops
`null`/`undefined`/`false` and otherwise yields a singleton. -/
def flattenChildren : Value → List Value
  | .vArr vs => flattenArr vs
  | v => if isFilteredChild v then [] else [v]

/-- The loop body of `flattenChildren`'s array branch (index.js 71-80):
skip filtered values, splice nested arrays via the recursive call
`result.push(...flattenChildren(child))`, push anything else. -/
def flattenArr : List Value → List Value
  | [] => []
  | c :: rest =>
      (if isFilteredChild c then []
       else match c with
         | .vArr _ => flattenChildren c
         | _ => [c]) ++ flattenArr rest
end

/-- `processProps` (index.js 147-171).  Children are extracted with
destructuring default `children = []` (which fires when the key is absent or
its value is `undefined`), the remaining entries are classified in iteration
order, and the children are flattened once and wrapped in the children
component closure (`createChildrenComponent`, index.js 133-140).
Returns `(attributes, events, childrenComponent)`. -/
def processProps (props : Obj) : Obj × Obj × Closure :=
  let children : Value :=
    match lookupObj props "children" with
    | none => .vArr []
    | some .vUndefined => .vArr []
    | some v => v
  let otherProps := props.filter fun p => !(p.1 == "children")
  let (attributes, events) :=
    otherProps.foldl
      (fun acc p =>
        if startsOn p.1 && isCallable p.2 then
          (acc.1, setObj acc.2 (eventNameOf p.1) p.2)
        else
          (setObj acc.1 (jsxKeyToHtml p.1) p.2, acc.2))
      ([], [])
  (attributes, events, .childrenComponent (flattenChildren children))

/-- The children component built by `componentWrapper` (index.js 228-230):
`rawProps.children ? createChildrenComponent(Array.isArray(c) ? c : [c])
: createChildrenComponent([])` — a truthiness test, with an absent key reading
as `undefined` (falsy). -/
def componentChildren (rawProps : Obj) : Closure :=
  match lookupObj rawProps "children" with
  | none => .childrenComponent (flattenChildren (.vArr []))
  | some cv =>
      if truthy cv then
        .childrenComponent
          (flattenChildren (match cv with | .vArr vs => .vArr vs | _ => .vArr [cv]))
      else .childrenComponent (flattenChildren (.vArr []))

/-- The span `{start, end}` stored in a block; the host may store a span whose
`start` is still `null`, which `assign_nodes` fills in. -/
structure Span where
  start : Option Nat
  stop : Option Nat
deriving DecidableEq

/-- The render context (`Block`): the host-owned object whose field `s` holds
the span of nodes this render pass produced.  Per the spec's design note, the
process-global `active_block` is threaded explicitly through the state. -/
structure Blk where
  s : Option Span
deriving DecidableEq

/-- `assign_nodes` (index.js 9-21): if the block's span is unset, set it to
`{start, end}`; else if the existing span's start is unset, fill start and end;
otherwise leave the block untouched. -/
def assign_nodes (start stop : Nat) (b : Blk) : Blk :=
  match b.s with
  | none => { s := some { start := some start, stop := some stop } }
  | some sp =>
      match sp.start with
      | none => { s := some { start := some start, stop := some stop } }
      | some _ => b

/-- What a DOM node is: an element (with tag and namespace) or a text node. -/
inductive NodeKind where
  | element (tag : String) (ns : Ns)
  | text (s : String)
deriving DecidableEq

/-- One DOM node record: its kind, attributes (set through the host's
`set_attribute`), registered event listeners (name/handler pairs, in
registration order, matching `addEventListener`), child ids in document order,
and parent id. -/
structure DomNode where
  kind : NodeKind
  attrs : Obj
  events : List (String × Value)
  children : List Nat
  parent : Option Nat

/-- The interpreter state: the node store (ids are allocation-ordered, every
stored id is below `nextId`), the allocation counter, and the active render
context. -/
structure St where
  nodes : List (Nat × DomNode)
  nextId : Nat
  block : Blk

/-- Look a node up by id. -/
def getNode (st : St) (id : Nat) : Option DomNode :=
  (st.nodes.find? fun p => p.1 == id).map (·.2)

/-- Replace the record of node `id` by `f` applied to it. -/
def modifyNode (st : St) (id : Nat) (f : DomNode → DomNode) : St :=
  { st with nodes := st.nodes.map fun p => if p.1 = id then (p.1, f p.2) else p }

/-- Allocate a fresh node, returning its id. -/
def allocNode (nd : DomNode) (st : St) : Nat × St :=
  (st.nextId,
   { st with nodes := (st.nextId, nd) :: st.nodes, nextId := st.nextId + 1 })

/-- `create_text` (index.js 29-31): a fresh text node. -/
def create_text (s : String) (st : St) : Nat × St :=
  allocNode { kind := .text s, attrs := [], events := [], children := [], parent := none } st

/-- `create_anchor` (index.js 23-27): a fresh empty text node (the `__t`
marker carries no behavior in this module). -/
def create_anchor (st : St) : Nat × St :=
  create_text "" st

/-- The closed SVG tag set of `createElement` (index.js 92-105). -/
def svgTags : List String :=
  ["svg", "circle", "path", "rect", "g", "line", "polyline", "polygon",
   "ellipse", "text", "tspan", "defs", "use", "image"]

/-- The closed MathML tag set of `createElement` (index.js 112-120). -/
def mathmlTags : List String :=
  ["math", "mi", "mo", "mn", "mrow", "msup", "msub", "mfrac", "msqrt"]

/-- The namespace dispatch of `createElement` (index.js 89-126): the two
`===`-chains are membership tests in the closed tag sets. -/
def namespaceOf (tag : String) : Ns :=
  if tag ∈ svgTags then .svg
  else if tag ∈ mathmlTags then .mathml
  else .html

/-- `createElement` (index.js 89-126): a fresh element in the namespace chosen
by the tag. -/
def createElement (tag : String) (st : St) : Nat × St :=
  allocNode
    { kind := .element tag (namespaceOf tag), attrs := [], events := [],
      children := [], parent := none } st

/-- Modelled from the spec: the host primitive `set_attribute(element, key,
value)` from `ripple/internal/client` (not in src/) — "attribute setter
(element, htmlAttributeName, value) -> void"; it records the attribute on the
element. -/
def set_attribute (el : Nat) (k : String) (v : Value) (st : St) : St :=
  modifyNode st el fun nd => { nd with attrs := setObj nd.attrs k v }

/-- `element.addEventListener(eventName, handler)` (index.js 259): listeners
accumulate in registration order. -/
def addEventListener (el : Nat) (ev : String) (h : Value) (st : St) : St :=
  modifyNode st el fun nd => { nd with events := nd.events ++ [(ev, h)] }

/-- `element.appendChild(node)` (index.js 264): push at the end of the child
list and reparent. -/
def appendChild (par ch : Nat) (st : St) : St :=
  modifyNode (modifyNode st par fun nd => { nd with children := nd.children ++ [ch] })
    ch fun nd => { nd with parent := some par }

/-- Insert `new_` immediately before the first occurrence of `target`. -/
def insertBeforeList (target new_ : Nat) : List Nat → List Nat
  | [] => []
  | x :: xs => if x = target then new_ :: x :: xs else x :: insertBeforeList target new_ xs

/-- Modelled from the spec: the host primitive `append(anchor, node)` from
`ripple/internal/client` (not in src/) — "node-append (anchor, node) -> void",
with "Anchor: a DOM reference node before/at which new nodes are inserted":
`node` is inserted immediately before `anchor` in `anchor`'s parent and
reparented.  Every node this adapter passes to `append` is freshly created and
parentless, so no detaching step is modeled.  A parentless anchor makes the
call a no-op. -/
def append (anchor node : Nat) (st : St) : St :=
  match (getNode st anchor).bind (·.parent) with
  | none => st
  | some p =>
      modifyNode
        (modifyNode st p fun nd =>
          { nd with children := insertBeforeList anchor node nd.children })
        node fun nd => { nd with parent := some p }

/-- Apply `assign_nodes` to the state's active render context. -/
def assignNodesSt (start stop : Nat) (st : St) : St :=
  { st with block := assign_nodes start stop st.block }

/-- A pending activation of the adapter's code: invoking one of its closures
with `(anchor, wrapperProps, active_block)`, or the loop of `renderChildren`
(index.js 178-209) with its `firstNode`/`lastNode` accumulators. -/
inductive Act where
  | call (c : Closure) (anchor : Nat) (wrapperProps : Obj)
  | rlist (children : List Value) (anchor : Nat) (first last : Option Nat)

/-- The interpreter.  Fuel bounds the closure-nesting depth; `none` means the
bound was hit (the JS code always terminates on finite values, so any
sufficiently large fuel succeeds).

`.call (.elementWrapper ..)` is index.js 243-270: create the element, merge
constructor props with call-time props (override wins), classify, set each
non-nullish attribute, add listeners, render the children inside the element
against a fresh child anchor, then append the element before the caller's
anchor and `assign_nodes(element, element)`.

`.call (.componentWrapper ..)` is index.js 221-239: merge props, replace
`children` by a children component, then dispatch on the callable's declared
arity.  A call into an opaque external user function leaves the adapter's
state unchanged (its behavior is outside this module); adapter-produced
closures declare 2 or 3 parameters, so they always take the direct-call
branch.

`.rlist` is `renderChildren` (index.js 178-209): strings and numbers become
text nodes, callables are invoked against a fresh anchor (an opaque external
callable again leaves the state unchanged after its anchor is inserted), DOM
node references are appended directly, everything else (null, undefined,
booleans, arrays — arrays have no `nodeType`) is ignored; at the end, if any
node was produced, `assign_nodes(firstNode, lastNode)`. -/
def run : Nat → Act → St → Option St
  | 0, _, _ => none
  | Nat.succ fuel, .call c anchor wrapperProps, st =>
    match c with
    | .elementWrapper tag props =>
        let (eid, st₁) := createElement tag st
        let merged := spreadMerge props wrapperProps
        let pp := processProps merged
        let st₂ := pp.1.foldl
          (fun s kv => if isNullish kv.2 then s else set_attribute eid kv.1 kv.2 s) st₁
        let st₃ := pp.2.1.foldl (fun s kv => addEventListener eid kv.1 kv.2 s) st₂
        let (ca, st₄) := create_anchor st₃
        let st₅ := appendChild eid ca st₄
        match run fuel (.call pp.2.2 ca []) st₅ with
        | none => none
        | some st₆ => some (assignNodesSt eid eid (append anchor eid st₆))
    | .componentWrapper t props =>
        let rawProps := spreadMerge props wrapperProps
        let processedProps :=
          setObj rawProps "children" (.vClosure (componentChildren rawProps))
        if arityOf t = 1 then
          -- fragment-style: `type(processedProps)(anchor, processedProps, block)`;
          -- only an opaque external callable can declare arity 1 here
          some st
        else
          match t with
          | .vClosure c' => run fuel (.call c' anchor processedProps) st
          | _ => some st
    | .childrenComponent flat => run fuel (.rlist flat anchor none none) st
  | Nat.succ fuel, .rlist children anchor first last, st =>
    match children with
    | [] =>
        some (match first, last with
              | some f, some l => assignNodesSt f l st
              | _, _ => st)
    | child :: rest =>
        match child with
        | .vStr s =>
            let (t, st₁) := create_text s st
            let st₂ := append anchor t st₁
            run fuel (.rlist rest anchor (some (first.getD t)) (some t)) st₂
        | .vNum n =>
            let (t, st₁) := create_text (toString n) st
            let st₂ := append anchor t st₁
            run fuel (.rlist rest anchor (some (first.getD t)) (some t)) st₂
        | .vClosure c =>
            let (ca, st₁) := create_anchor st
            let st₂ := append anchor ca st₁
            match run fuel (.call c ca []) st₂ with
            | none => none
            | some st₃ =>
                run fuel (.rlist rest anchor (some (first.getD ca)) (some ca)) st₃
        | .vFun _ =>
            let (ca, st₁) := create_anchor st
            let st₂ := append anchor ca st₁
            run fuel (.rlist rest anchor (some (first.getD ca)) (some ca)) st₂
        | .vNode id =>
            let st₁ := append anchor id st
            run fuel (.rlist rest anchor (some (first.getD id)) (some id)) st₁
        | _ => run fuel (.rlist rest anchor first last) st

/-- The single explicit error of the module (index.js 273). -/
inductive JsxError where
  | invalidType (t : Value)

/-- `jsx` (index.js 217-275): a callable type yields a `componentWrapper`
closure, a string type yields an `elementWrapper` closure, anything else
throws the invalid-type error synchronously, before any DOM work. -/
def jsx (type : Value) (props : Obj) : Except JsxError Value :=
  if isCallable type then .ok (.vClosure (.componentWrapper type props))
  else
    match type with
    | .vStr tag => .ok (.vClosure (.elementWrapper tag props))
    | _ => .error (.invalidType type)

/-- `jsxs` (index.js 283-285): delegates to `jsx`. -/
def jsxs (type : Value) (props : Obj) : Except JsxError Value :=
  jsx type props

/-- `jsxDEV` (index.js 313-315): delegates to `jsx`. -/
def jsxDEV (type : Value) (props : Obj) : Except JsxError Value :=
  jsx type props

/-- An external user component function, abstracted by its declared arity and
its behavior under the two calling conventions `componentWrapper` can use:
`asFragment` models `type(props)` returning an inner closure that is then
invoked with `(anchor, props, block)`, and `asComponent` models the direct
call `type(anchor, props, block)`.  `α` is the host-visible effect of the
call. -/
structure UserComponent (α : Type) where
  arity : Nat
  asFragment : Obj → Nat → Obj → Blk → α
  asComponent : Nat → Obj → Blk → α

/-- The processed props built by `componentWrapper` (index.js 223-231): merge
constructor props with call-time props, then replace `children` by the
children component closure. -/
def componentProcessedProps (props wrapperProps : Obj) : Obj :=
  let rawProps := spreadMerge props wrapperProps
  setObj rawProps "children" (.vClosure (componentChildren rawProps))

/-- `componentWrapper` (index.js 221-239) for an external user function,
keeping the user function abstract: build the processed props, then dispatch
on the declared arity — `type.length === 1` selects the fragment-style
convention `type(processedProps)(anchor, processedProps, block)`, anything
else the direct call `type(anchor, processedProps, block)`. -/
def componentWrapper {α : Type} (type : UserComponent α) (props : Obj)
    (anchor : Nat) (wrapperProps : Obj) (block : Blk) : α :=
  let processedProps := componentProcessedProps props wrapperProps
  if type.arity = 1 then type.asFragment processedProps anchor processedProps block
  else type.asComponent anchor processedProps block

/-- `true` when no DOM-node reference (`vNode`) occurs anywhere inside the
value, including inside closure-captured props.  Children carrying raw DOM
node references make the host `append` move pre-existing nodes, which the
insertion-only model of `append` does not cover; the general theorems below
assume this predicate. -/
def valueNoNode : Value → Bool
  | .vNode _ => false
  | .vArr vs => vs.attach.all fun c => valueNoNode c.1
  | .vClosure (.elementWrapper _ props) => props.attach.all fun p => valueNoNode p.1.2
  | .vClosure (.componentWrapper t props) =>
      valueNoNode t && props.attach.all fun p => valueNoNode p.1.2
  | .vClosure (.childrenComponent l) => l.attach.all fun c => valueNoNode c.1
  | _ => true
decreasing_by
  all_goals simp_wf
  · have h := List.sizeOf_lt_of_mem c.2; omega
  · obtain ⟨⟨a, b⟩, hm⟩ := p
    have h := List.sizeOf_lt_of_mem hm
    simp at h ⊢
    omega
  · omega
  · obtain ⟨⟨a, b⟩, hm⟩ := p
    have h := List.sizeOf_lt_of_mem hm
    simp at h ⊢
    omega
  · have h := List.sizeOf_lt_of_mem c.2; omega

/-- No `vNode` in any value of an object. -/
def objNoNode (o : Obj) : Bool :=
  o.all fun p => valueNoNode p.2

/-- No `vNode` in any value of a list. -/
def listNoNode (l : List Value) : Bool :=
  l.all valueNoNode

/-- No `vNode` reachable from a task. -/
def actNoNode : Act → Bool
  | .call (.elementWrapper _ props) _ wp => objNoNode props && objNoNode wp
  | .call (.componentWrapper t props) _ wp =>
      valueNoNode t && objNoNode props && objNoNode wp
  | .call (.childrenComponent l) _ _ => listNoNode l
  | .rlist l _ _ _ => listNoNode l

/-- The anchor a task operates at. -/
def actAnchor : Act → Nat
  | .call _ a _ => a
  | .rlist _ a _ _ => a

/-- The parent pointer of a node, if the node exists and is attached. -/
def parentOf (st : St) (id : Nat) : Option Nat :=
  (getNode st id).bind (·.parent)

/-- The child list of a node (empty if the node does not exist). -/
def childrenOf (st : St) (id : Nat) : List Nat :=
  ((getNode st id).map (·.children)).getD []

/-- How one adapter step may change the state: the allocation counter grows,
any pre-existing node outside the exception set `S` keeps its exact record,
and every pre-existing node keeps its kind and its parent pointer (the adapter
only ever sets the parent of freshly created nodes, given `actNoNode`). -/
structure Evolves (S : Nat → Prop) (st st' : St) : Prop where
  nextLe : st.nextId ≤ st'.nextId
  frame : ∀ id, id < st.nextId → ¬ S id → getNode st' id = getNode st id
  stable : ∀ id nd, id < st.nextId → getNode st id = some nd →
    ∃ nd', getNode st' id = some nd' ∧ nd'.parent = nd.parent ∧ nd'.kind = nd.kind
  absent : ∀ id, id < st.nextId → getNode st id = none → getNode st' id = none

/-- Spec-side (refinement comparison only), following the spec's words for
prop classification: "key whose name matches `/^on[A-Z]/`" — `on` followed by
an upper-case letter. -/
def specEventKeyTest (k : String) : Bool :=
  match onSplit k with
  | some (c, _) => c.isUpper
  | none => false

/-- Spec-side (refinement comparison only), following the spec's words for
non-function `on`-prefixed attribute names: "the key lower-cased after the
`on` prefix (`onX` → `onx`)" — the whole suffix lower-cased. -/
def specOnAttrName (k : String) : String :=
  String.mk ('o' :: 'n' :: (k.data.drop 2).map Char.toLower)

/-- JS-style "first defined wins" on optional values (reading a key through
an object spread). -/
def oOr (x y : Option Value) : Option Value :=
  match x with
  | some v => some v
  | none => y

/-- The props of the inner `jsx('span', {children:'b'})` of the end-to-end
example. -/
def exSpanProps : Obj := [("children", .vStr "b")]

/-- The props of the outer `jsx('div', {className:'x', children:['a',
jsx('span', {children:'b'})]})` of the end-to-end example. -/
def exProps : Obj :=
  [("className", .vStr "x"),
   ("children", .vArr [.vStr "a", .vClosure (.elementWrapper "span" exSpanProps)])]

/-- The initial state of the end-to-end example: a root element (id 0)
containing the caller's anchor (id 1, an empty text node), and a render
context whose span is unset. -/
def exSt0 : St :=
  { nodes :=
      [(0, { kind := .element "root" .html, attrs := [], events := [],
             children := [1], parent := none }),
       (1, { kind := .text "", attrs := [], events := [], children := [],
             parent := some 0 })],
    nextId := 2,
    block := { s := none } }

/-- The end-to-end example run: the wrapper produced by
`jsx('div', {className:'x', children:['a', jsx('span', {children:'b'})]})`
invoked against anchor 1.  Allocation order gives: 2 = the div, 3 = the div's
child anchor, 4 = text "a", 5 = the span wrapper's anchor, 6 = the span,
7 = the span's child anchor, 8 = text "b". -/
def exRes : Option St := run 20 (.call (.elementWrapper "div" exProps) 1 []) exSt0

theorem lookupObj_append (a b : Obj) (k : String) :
    lookupObj (a ++ b) k = oOr (lookupObj a k) (lookupObj b k) := by
  induction a with
  | nil => simp [lookupObj, oOr]
  | cons p rest ih =>
      obtain ⟨k₀, v₀⟩ := p
      by_cases h : k₀ = k
      · simp [lookupObj, h, oOr]
      · simp [lookupObj, h, ih]

theorem lookupObj_mapOverride (a : Obj) (g : String → Value → Value) (k : String) :
    lookupObj (a.map fun p => (p.1, g p.1 p.2)) k = (lookupObj a k).map (g k) := by
  induction a with
  | nil => simp [lookupObj]
  | cons p rest ih =>
      obtain ⟨k₀, v₀⟩ := p
      by_cases h : k₀ = k
      · subst h; simp [lookupObj]
      · simp [lookupObj, h, ih]

theorem lookupObj_filterKey (o : Obj) (q : String → Bool) (k : String) :
    lookupObj (o.filter fun p => q p.1) k = if q k then lookupObj o k else none := by
  induction o with
  | nil => simp [lookupObj]
  | cons p rest ih =>
      obtain ⟨k₀, v₀⟩ := p
      by_cases hk : k₀ = k
      · subst hk
        by_cases hq : q k₀ = true <;> simp [lookupObj, hq, ih]
      · by_cases hq : q k₀ = true <;> simp [lookupObj, hk, hq, ih]

theorem spreadMerge_lookup (a b : Obj) (k : String) :
    lookupObj (spreadMerge a b) k = oOr (lookupObj b k) (lookupObj a k) := by
  unfold spreadMerge
  rw [lookupObj_append,
      lookupObj_mapOverride a
        (fun k₀ v₀ => match lookupObj b k₀ with | some w => w | none => v₀) k,
      lookupObj_filterKey b (fun s => (lookupObj a s).isNone) k]
  cases ha : lookupObj a k <;> cases hb : lookupObj b k <;> simp [ha, hb, oOr]

theorem setObj_lookup_self (o : Obj) (k : String) (v : Value) :
    lookupObj (setObj o k v) k = some v := by
  induction o with
  | nil => simp [setObj, lookupObj]
  | cons p rest ih =>
      obtain ⟨k₀, v₀⟩ := p
      by_cases h : k₀ = k <;> simp [setObj, lookupObj, h, ih]

theorem setObj_lookup_other (o : Obj) (k k' : String) (v : Value) (h : k' ≠ k) :
    lookupObj (setObj o k v) k' = lookupObj o k' := by
  induction o with
  | nil =>
      have h' : ¬ k = k' := fun e => h e.symm
      simp [setObj, lookupObj, h']
  | cons p rest ih =>
      obtain ⟨k₀, v₀⟩ := p
      by_cases hk : k₀ = k
      · subst hk
        have h' : ¬ k₀ = k' := fun e => h e.symm
        simp [setObj, lookupObj, h']
      · by_cases hk' : k₀ = k'
        · subst hk'
          simp [setObj, lookupObj, hk, h]
        · simp [setObj, lookupObj, hk, hk', ih]

theorem flattenArr_flatMap (vs : List Value) :
    flattenArr vs = vs.flatMap flattenChildren := by
  induction vs with
  | nil => simp [flattenArr]
  | cons c rest ih =>
      have hb : (if isFilteredChild c then []
           else match c with | .vArr _ => flattenChildren c | _ => [c])
          = flattenChildren c := by
        cases c with
        | vNull => simp [isFilteredChild, flattenChildren]
        | vUndefined => simp [isFilteredChild, flattenChildren]
        | vBool b => cases b <;> simp [isFilteredChild, flattenChildren]
        | vStr s => simp [isFilteredChild, flattenChildren]
        | vNum n => simp [isFilteredChild, flattenChildren]
        | vArr vs' => simp [isFilteredChild]
        | vNode id => simp [isFilteredChild, flattenChildren]
        | vClosure c' => simp [isFilteredChild, flattenChildren]
        | vFun a => simp [isFilteredChild, flattenChildren]
      simp [flattenArr, hb, ih]

theorem flattenArr_no_filtered :
    ∀ (n : Nat) (vs : List Value), sizeOf vs ≤ n →
      ∀ x ∈ flattenArr vs, isFilteredChild x = false ∧ isArrayV x = false := by
  intro n
  induction n with
  | zero =>
      intro vs h x hx
      cases vs with
      | nil => simp [flattenArr] at hx
      | cons c rest => simp at h
  | succ n ih =>
      intro vs h x hx
      cases vs with
      | nil => simp [flattenArr] at hx
      | cons c rest =>
          simp only [flattenArr, List.mem_append] at hx
          rcases hx with hx | hx
          · by_cases hf : isFilteredChild c = true
            · simp [hf] at hx
            · rw [if_neg hf] at hx
              cases c with
              | vArr cs =>
                  have hsz : sizeOf cs ≤ n := by simp at h; omega
                  have : flattenChildren (Value.vArr cs) = flattenArr cs := by
                    simp [flattenChildren]
                  rw [this] at hx
                  exact ih cs hsz x hx
              | vNull => simp at hx; subst hx; exact ⟨by simpa using hf, rfl⟩
              | vUndefined => simp at hx; subst hx; exact ⟨by simpa using hf, rfl⟩
              | vBool b => simp at hx; subst hx; exact ⟨by simpa using hf, rfl⟩
              | vStr s => simp at hx; subst hx; exact ⟨by simpa using hf, rfl⟩
              | vNum m => simp at hx; subst hx; exact ⟨by simpa using hf, rfl⟩
              | vNode id => simp at hx; subst hx; exact ⟨by simpa using hf, rfl⟩
              | vClosure c' => simp at hx; subst hx; exact ⟨by simpa using hf, rfl⟩
              | vFun a => simp at hx; subst hx; exact ⟨by simpa using hf, rfl⟩
          · have hsz : sizeOf rest ≤ n := by simp at h; omega
            exact ih rest hsz x hx

theorem flattenChildren_no_filtered (v : Value) :
    ∀ x ∈ flattenChildren v, isFilteredChild x = false ∧ isArrayV x = false := by
  intro x hx
  cases v with
  | vArr vs =>
      have : flattenChildren (Value.vArr vs) = flattenArr vs := by simp [flattenChildren]
      rw [this] at hx
      exact flattenArr_no_filtered (sizeOf vs) vs le_rfl x hx
  | vNull => simp [flattenChildren, isFilteredChild] at hx
  | vUndefined => simp [flattenChildren, isFilteredChild] at hx
  | vBool b =>
      cases b with
      | false => simp [flattenChildren, isFilteredChild] at hx
      | true => simp [flattenChildren, isFilteredChild] at hx; subst hx; exact ⟨rfl, rfl⟩
  | vStr s => simp [flattenChildren, isFilteredChild] at hx; subst hx; exact ⟨rfl, rfl⟩
  | vNum n => simp [flattenChildren, isFilteredChild] at hx; subst hx; exact ⟨rfl, rfl⟩
  | vNode id => simp [flattenChildren, isFilteredChild] at hx; subst hx; exact ⟨rfl, rfl⟩
  | vClosure c => simp [flattenChildren, isFilteredChild] at hx; subst hx; exact ⟨rfl, rfl⟩
  | vFun a => simp [flattenChildren, isFilteredChild] at hx; subst hx; exact ⟨rfl, rfl⟩

/-- C10: `jsxs(type, props)` and `jsxDEV(type, props)` are definitionally
equal to `jsx(type, props)` for every type and props: the three entry points
return the same result (the same wrapper closure or the same error). -/
theorem c10_jsxs_jsxDEV_delegate :
    ∀ (type : Value) (props : Obj),
      jsxs type props = jsx type props ∧ jsxDEV type props = jsx type props :=
  fun _ _ => ⟨rfl, rfl⟩

/-- C8: `jsx(type, props)` fails with the invalid-JSX-element-type error
exactly when `type` is neither callable nor a string; the failure happens at
wrapper-construction time (no interpreter state is involved in `jsx` at all,
so no DOM mutation can precede it), and in particular `jsx(42, {})` fails.
This is the module's only explicit error (`JsxError` has a single
constructor). -/
theorem c8_invalid_type_error :
    (∀ (type : Value) (props : Obj),
        (∃ e, jsx type props = .error e) ↔
          (isCallable type = false ∧ isString type = false)) ∧
    jsx (.vNum 42) [] = .error (.invalidType (.vNum 42)) := by
  constructor
  · intro type props
    cases type <;> simp [jsx, isCallable, isString]
  · rfl

/-- C7: `assign_nodes(start, end)` against the current render context: if the
context's span is unset, set it to `(start, end)`; else if the existing span's
start is unset, fill start and end with `(start, end)`; otherwise leave the
context completely untouched (first writer wins). -/
theorem c7_assign_nodes_first_writer :
    ∀ (start stop : Nat) (b : Blk),
      (b.s = none →
        assign_nodes start stop b = { s := some { start := some start, stop := some stop } }) ∧
      (∀ sp, b.s = some sp → sp.start = none →
        assign_nodes start stop b = { s := some { start := some start, stop := some stop } }) ∧
      (∀ sp x, b.s = some sp → sp.start = some x → assign_nodes start stop b = b) := by
  intro start stop b
  refine ⟨?_, ?_, ?_⟩
  · intro h; simp [assign_nodes, h]
  · intro sp h hs; simp [assign_nodes, h, hs]
  · intro sp x h hs; simp [assign_nodes, h, hs]

/-- Witness for C7 at concrete inputs: an unset context gets the span, and a
context whose span start is already set is untouched. -/
theorem c7_assign_nodes_first_writer_witness :
    assign_nodes 1 2 { s := none } = { s := some { start := some 1, stop := some 2 } } ∧
    assign_nodes 1 2 { s := some { start := some 9, stop := some 9 } }
      = { s := some { start := some 9, stop := some 9 } } :=
  ⟨(c7_assign_nodes_first_writer 1 2 { s := none }).1 rfl,
   (c7_assign_nodes_first_writer 1 2 { s := some { start := some 9, stop := some 9 } }).2.2
     { start := some 9, stop := some 9 } 9 rfl rfl⟩

/-- C9: `createElement`'s namespace dispatch: tags in the fixed SVG set get
the SVG namespace, tags in the fixed MathML set get the MathML namespace, and
every other tag gets the default (HTML) namespace; the created element records
the tag and that namespace. -/
theorem c9_namespace_dispatch :
    ∀ tag : String,
      (tag ∈ svgTags → namespaceOf tag = .svg) ∧
      (tag ∈ mathmlTags → namespaceOf tag = .mathml) ∧
      (tag ∉ svgTags → tag ∉ mathmlTags → namespaceOf tag = .html) ∧
      (∀ st : St, ∃ nd, getNode (createElement tag st).2 (createElement tag st).1 = some nd ∧
        nd.kind = .element tag (namespaceOf tag)) := by
  intro tag
  refine ⟨?_, ?_, ?_, ?_⟩
  · intro h; simp [namespaceOf, h]
  · intro h
    have hnot : tag ∉ svgTags := by fin_cases h <;> decide
    simp [namespaceOf, h, hnot]
  · intro h1 h2; simp [namespaceOf, h1, h2]
  · intro st
    refine ⟨{ kind := .element tag (namespaceOf tag), attrs := [], events := [],
              children := [], parent := none }, ?_, rfl⟩
    simp [createElement, allocNode, getNode, List.find?]

/-- Witness for C9 at concrete tags: `circle` is SVG, `math` is MathML,
`div` is HTML. -/
theorem c9_namespace_dispatch_witness :
    namespaceOf "circle" = .svg ∧ namespaceOf "math" = .mathml ∧
    namespaceOf "div" = .html :=
  ⟨(c9_namespace_dispatch "circle").1 (by decide),
   (c9_namespace_dispatch "math").2.1 (by decide),
   (c9_namespace_dispatch "div").2.2.1 (by decide) (by decide)⟩

/-- C4: child flattening.  On an array, the output is the depth-first
left-to-right concatenation of the flattening of its elements — so nested
arrays are spliced in order, and `null`/`undefined`/`false` are removed at
every nesting level (no value in the output is ever one of the filtered
values); on a non-array value that is not `null`/`undefined`/`false`, the
output is the singleton holding exactly that value. -/
theorem c4_flatten_characterization :
    (∀ vs : List Value, flattenChildren (.vArr vs) = vs.flatMap flattenChildren) ∧
    (∀ v : Value, isArrayV v = false → isFilteredChild v = false →
        flattenChildren v = [v]) ∧
    (∀ (v : Value) (x : Value), x ∈ flattenChildren v → isFilteredChild x = false) := by
  refine ⟨?_, ?_, ?_⟩
  · intro vs
    have : flattenChildren (Value.vArr vs) = flattenArr vs := by simp [flattenChildren]
    rw [this, flattenArr_flatMap]
  · intro v ha hf
    cases v with
    | vArr vs => simp [isArrayV] at ha
    | vNull => simp [isFilteredChild] at hf
    | vUndefined => simp [isFilteredChild] at hf
    | vBool b => cases b with
        | false => simp [isFilteredChild] at hf
        | true => simp [flattenChildren, isFilteredChild]
    | vStr s => simp [flattenChildren, isFilteredChild]
    | vNum n => simp [flattenChildren, isFilteredChild]
    | vNode id => simp [flattenChildren, isFilteredChild]
    | vClosure c => simp [flattenChildren, isFilteredChild]
    | vFun a => simp [flattenChildren, isFilteredChild]
  · intro v x hx
    exact (flattenChildren_no_filtered v x hx).1

/-- Witness for C4 at concrete inputs: a nested array flattens depth-first
with `null`/`undefined`/`false` removed, and a scalar becomes a singleton. -/
theorem c4_flatten_characterization_witness :
    flattenChildren (.vArr [.vStr "a", .vNull, .vArr [.vBool false, .vNum 3], .vUndefined])
      = [.vStr "a", .vNum 3] ∧
    flattenChildren (.vNum 7) = [.vNum 7] := by
  constructor
  · have h := c4_flatten_characterization.1
      [.vStr "a", .vNull, .vArr [.vBool false, .vNum 3], .vUndefined]
    rw [h]; rfl
  · exact c4_flatten_characterization.2.1 (.vNum 7) rfl rfl

/-- C5 counterexample: the claim says `true` is dropped during flattening, but
`flattenChildren([true])` keeps it: `true` does appear in the flattened
output. -/
theorem c5_counterexample :
    flattenChildren (.vArr [.vBool true]) = [.vBool true] ∧
    Value.vBool true ∈ flattenChildren (.vArr [.vBool true]) :=
  ⟨rfl, by rw [(by rfl : flattenChildren (.vArr [.vBool true]) = [.vBool true])]; simp⟩

/-- C5 amended: `true` survives flattening (it is not in the filter set), but
the child renderer ignores it — a `true` child is skipped without creating a
node, touching the accumulators, or writing the span, so rendering `[true]`
leaves the state unchanged. -/
theorem c5_amended_true_ignored_at_render :
    flattenChildren (.vArr [.vBool true]) = [.vBool true] ∧
    (∀ (fuel : Nat) (rest : List Value) (anchor : Nat) (first last : Option Nat) (st : St),
      run (fuel + 1) (.rlist (.vBool true :: rest) anchor first last) st =
        run fuel (.rlist rest anchor first last) st) ∧
    (∀ (anchor : Nat) (st : St), run 2 (.rlist [.vBool true] anchor none none) st = some st) := by
  refine ⟨rfl, ?_, ?_⟩
  · intro fuel rest anchor first last st; rfl
  · intro anchor st; rfl

/-- C6 counterexample: for an `on`-prefixed non-event key the code lower-cases
only the first letter after `on`, not the whole suffix: `onFooBar` becomes
`onfooBar`, while the claim's rule ("the key lower-cased after the `on`
prefix") yields `onfoobar`. -/
theorem c6_counterexample :
    jsxKeyToHtml "onFooBar" = "onfooBar" ∧
    specOnAttrName "onFooBar" = "onfoobar" ∧
    jsxKeyToHtml "onFooBar" ≠ specOnAttrName "onFooBar" := by
  refine ⟨rfl, rfl, ?_⟩
  decide

/-- C6 amended: the 8 fixed table mappings hold exactly; a key that is not in
the table and does not match `/^on[A-Z]/` passes through unchanged; and a key
of shape `on` + upper-case letter + rest that is not in the table maps to
`on` + that letter lower-cased + the rest unchanged (only the first character
after `on` is lower-cased). -/
theorem c6_amended_attr_names :
    (jsxKeyToHtml "className" = "class" ∧ jsxKeyToHtml "htmlFor" = "for" ∧
     jsxKeyToHtml "tabIndex" = "tabindex" ∧ jsxKeyToHtml "readOnly" = "readonly" ∧
     jsxKeyToHtml "autoComplete" = "autocomplete" ∧ jsxKeyToHtml "autoFocus" = "autofocus" ∧
     jsxKeyToHtml "contentEditable" = "contenteditable" ∧
     jsxKeyToHtml "noValidate" = "novalidate") ∧
    (∀ k : String, MAPPED_ATTRIBUTES.lookup k = none → specEventKeyTest k = false →
        jsxKeyToHtml k = k) ∧
    (∀ (c : Char) (rest : List Char),
        MAPPED_ATTRIBUTES.lookup (String.mk ('o' :: 'n' :: c :: rest)) = none →
        c.isUpper = true →
        jsxKeyToHtml (String.mk ('o' :: 'n' :: c :: rest))
          = String.mk ('o' :: 'n' :: c.toLower :: rest)) := by
  refine ⟨⟨rfl, rfl, rfl, rfl, rfl, rfl, rfl, rfl⟩, ?_, ?_⟩
  · intro k hl hs
    unfold jsxKeyToHtml
    rw [hl]
    unfold replaceOnUpper
    unfold specEventKeyTest at hs
    cases h : onSplit k with
    | none => rfl
    | some p =>
        obtain ⟨c, rest⟩ := p
        rw [h] at hs
        have hs' : c.isUpper = false := by simpa using hs
        simp [hs']
  · intro c rest hl hu
    unfold jsxKeyToHtml
    rw [hl]
    unfold replaceOnUpper
    have hsplit : onSplit (String.mk ('o' :: 'n' :: c :: rest)) = some (c, rest) := by
      simp [onSplit]
    rw [hsplit]
    simp [hu]

/-- Witness for C6 at concrete keys: `data-id` (not in the table, no
`/^on[A-Z]/` match) passes through, and `onXyz` lower-cases only the `X`. -/
theorem c6_amended_attr_names_witness :
    jsxKeyToHtml "data-id" = "data-id" ∧ jsxKeyToHtml "onXyz" = "onxyz" := by
  constructor
  · exact c6_amended_attr_names.2.1 "data-id" rfl rfl
  · exact c6_amended_attr_names.2.2 'X' ['y', 'z'] rfl rfl

/-- C2 counterexample: the key `onclick` does not match `/^on[A-Z]/`, yet with
a callable value `processProps` classifies it as an event named `click` (and
not as an attribute) — the code tests only `key.startsWith('on')`. -/
theorem c2_counterexample :
    (processProps [("onclick", .vFun 0)]).2.1 = [("click", .vFun 0)] ∧
    (processProps [("onclick", .vFun 0)]).1 = [] ∧
    specEventKeyTest "onclick" = false :=
  ⟨rfl, rfl, rfl⟩

/-- C2 amended: a non-`children` prop is classified as an event exactly when
its key starts with `on` (no upper-case requirement) and its value is
callable, in which case the event name is the key with `on` removed and the
whole remainder lower-cased; otherwise it is an attribute under
`jsxKeyToHtml`.  The claim's examples `onClick` → `click` and
`onDoubleClick` → `doubleclick` hold. -/
theorem c2_amended_event_classification :
    ∀ (k : String) (v : Value), k ≠ "children" →
      (startsOn k = true → isCallable v = true →
        (processProps [(k, v)]).1 = [] ∧
        (processProps [(k, v)]).2.1 = [(eventNameOf k, v)]) ∧
      ((startsOn k && isCallable v) = false →
        (processProps [(k, v)]).1 = [(jsxKeyToHtml k, v)] ∧
        (processProps [(k, v)]).2.1 = []) ∧
      (eventNameOf "onClick" = "click" ∧ eventNameOf "onDoubleClick" = "doubleclick") := by
  intro k v hk
  have hlook : lookupObj [(k, v)] "children" = none := by
    simp [lookupObj, hk]
  have hbeq : (k == "children") = false := by
    simp [hk]
  have hfilt : ([(k, v)] : Obj).filter (fun p => !(p.1 == "children")) = [(k, v)] := by
    simp [List.filter, hbeq]
  refine ⟨?_, ?_, rfl, rfl⟩
  · intro hs hc
    simp only [processProps, hlook, hfilt]
    simp [hs, hc, setObj]
  · intro hsc
    have hn : ¬(startsOn k = true ∧ isCallable v = true) := by
      rintro ⟨h1, h2⟩
      rw [h1, h2] at hsc
      simp at hsc
    simp only [processProps, hlook, hfilt]
    simp [hn, setObj]

/-- Witness for C2 at concrete props: a `onDoubleClick` handler becomes the
`doubleclick` event, and a plain `title` prop stays an attribute. -/
theorem c2_amended_event_classification_witness :
    (processProps [("onDoubleClick", .vFun 1)]).2.1 = [("doubleclick", .vFun 1)] ∧
    (processProps [("title", .vStr "t")]).1 = [("title", .vStr "t")] := by
  have h1 := c2_amended_event_classification "onDoubleClick" (.vFun 1) (by decide)
  have h2 := c2_amended_event_classification "title" (.vStr "t") (by decide)
  exact ⟨(h1.1 rfl rfl).2, (h2.2.1 (by decide)).1⟩

/-- C3: for a callable type, the wrapper merges constructor-time props with
call-time props (call-time wins), replaces `children` with the
children-renderer closure, and dispatches on the declared arity: arity 1
means fragment-style `type(merged)(anchor, merged, block)`, anything else the
direct call `type(anchor, merged, block)`. -/
theorem c3_component_wrapper_dispatch :
    ∀ (α : Type) (f : UserComponent α) (props wrapperProps : Obj) (anchor : Nat) (block : Blk),
      (componentWrapper f props anchor wrapperProps block =
        if f.arity = 1 then
          f.asFragment (componentProcessedProps props wrapperProps) anchor
            (componentProcessedProps props wrapperProps) block
        else f.asComponent anchor (componentProcessedProps props wrapperProps) block) ∧
      (lookupObj (componentProcessedProps props wrapperProps) "children" =
        some (.vClosure (componentChildren (spreadMerge props wrapperProps)))) ∧
      (∀ k : String, k ≠ "children" →
        lookupObj (componentProcessedProps props wrapperProps) k =
          oOr (lookupObj wrapperProps k) (lookupObj props k)) := by
  intro α f props wrapperProps anchor block
  refine ⟨rfl, ?_, ?_⟩
  · exact setObj_lookup_self _ _ _
  · intro k hk
    rw [componentProcessedProps, setObj_lookup_other _ _ _ _ hk, spreadMerge_lookup]

/-- Witness for C3 at concrete inputs: with a 2-ary user component, the
direct-call convention is used, the call-time prop wins the merge, and the
children key holds the children component. -/
theorem c3_component_wrapper_dispatch_witness :
    componentWrapper
        { arity := 2, asFragment := fun _ _ _ _ => (0 : Nat), asComponent := fun _ _ _ => 1 }
        [("a", .vStr "p")] 5 [("a", .vStr "w")] { s := none } = 1 ∧
    lookupObj (componentProcessedProps [("a", .vStr "p")] [("a", .vStr "w")]) "a"
      = some (.vStr "w") := by
  have h := c3_component_wrapper_dispatch Nat
    { arity := 2, asFragment := fun _ _ _ _ => (0 : Nat), asComponent := fun _ _ _ => 1 }
    [("a", .vStr "p")] [("a", .vStr "w")] 5 { s := none }
  constructor
  · rw [h.1]; rfl
  · rw [h.2.2 "a" (by decide)]; rfl

theorem find_map_update (l : List (Nat × DomNode)) (p id : Nat) (f : DomNode → DomNode) :
    ((l.map fun x => if x.1 = p then (x.1, f x.2) else x).find? fun x => x.1 == id).map (·.2)
      = if id = p then ((l.find? fun x => x.1 == p).map (·.2)).map f
        else (l.find? fun x => x.1 == id).map (·.2) := by
  induction l with
  | nil => by_cases h : id = p <;> simp [List.find?, h]
  | cons q rest ih =>
      obtain ⟨k, nd⟩ := q
      by_cases hkp : k = p <;> by_cases hki : k = id
      · have hip : id = p := by rw [← hki, hkp]
        have hb : (k == id) = true := by simp [hki]
        have hbp : (k == p) = true := by simp [hkp]
        simp [List.find?, hkp, hb, hbp, hip]
      · have hip : ¬ id = p := by
          intro e
          exact hki (by rw [hkp, ← e])
        have hb : (k == id) = false := by simp [hki]
        simp only [List.map_cons, if_pos hkp, List.find?, hb, if_neg hip]
        have hrest := ih
        rw [if_neg hip] at hrest
        simpa using hrest
      · have hip : ¬ id = p := by rw [← hki]; exact hkp
        have hb : (k == id) = true := by simp [hki]
        simp [List.find?, hkp, hb, hip]
      · have hb : (k == id) = false := by simp [hki]
        have hbp : (k == p) = false := by simp [hkp]
        simp only [List.map_cons, if_neg hkp, List.find?, hb, hbp]
        simpa using ih

theorem getNode_modifyNode (st : St) (p : Nat) (f : DomNode → DomNode) (id : Nat) :
    getNode (modifyNode st p f) id =
      if id = p then (getNode st p).map f else getNode st id := by
  obtain ⟨nodes, nextId, block⟩ := st
  simpa [getNode, modifyNode] using find_map_update nodes p id f

theorem getNode_alloc (nd : DomNode) (st : St) (id : Nat) :
    getNode (allocNode nd st).2 id =
      if id = st.nextId then some nd else getNode st id := by
  by_cases h : id = st.nextId
  · subst h
    simp [allocNode, getNode, List.find?]
  · have hb : (st.nextId == id) = false := by
      simp
      exact fun e => h e.symm
    simp [allocNode, getNode, List.find?, hb, h]

theorem nextId_modifyNode (st : St) (p : Nat) (f : DomNode → DomNode) :
    (modifyNode st p f).nextId = st.nextId := rfl

theorem nextId_alloc (nd : DomNode) (st : St) :
    (allocNode nd st).2.nextId = st.nextId + 1 := rfl

theorem getNode_assignNodesSt (a b : Nat) (st : St) (id : Nat) :
    getNode (assignNodesSt a b st) id = getNode st id := rfl

theorem Evolves.refl {S : Nat → Prop} (st : St) : Evolves S st st :=
  ⟨le_rfl, fun _ _ _ => rfl, fun _ nd _ h => ⟨nd, h, rfl, rfl⟩, fun _ _ h => h⟩

theorem Evolves.step_alloc {S : Nat → Prop} {st₀ st : St} (h : Evolves S st₀ st)
    (nd : DomNode) : Evolves S st₀ (allocNode nd st).2 := by
  have hne : ∀ id, id < st₀.nextId → ¬ id = st.nextId := by
    intro id hid e
    have := h.nextLe
    omega
  refine ⟨?_, ?_, ?_, ?_⟩
  · rw [nextId_alloc]
    exact Nat.le_succ_of_le h.nextLe
  · intro id hid hS
    rw [getNode_alloc, if_neg (hne id hid)]
    exact h.frame id hid hS
  · intro id nd' hid hg
    obtain ⟨nd'', hg'', hp, hk⟩ := h.stable id nd' hid hg
    exact ⟨nd'', by rw [getNode_alloc, if_neg (hne id hid)]; exact hg'', hp, hk⟩
  · intro id hid hg
    rw [getNode_alloc, if_neg (hne id hid)]
    exact h.absent id hid hg

theorem Evolves.step_modify {S : Nat → Prop} {st₀ st : St} (h : Evolves S st₀ st)
    (p : Nat) (f : DomNode → DomNode) (hp : S p ∨ st₀.nextId ≤ p)
    (hpf : ∀ nd, (f nd).parent = nd.parent ∧ (f nd).kind = nd.kind) :
    Evolves S st₀ (modifyNode st p f) := by
  refine ⟨?_, ?_, ?_, ?_⟩
  · rw [nextId_modifyNode]
    exact h.nextLe
  · intro id hid hS
    have hnp : ¬ id = p := by
      intro e
      subst e
      rcases hp with hp | hp
      · exact hS hp
      · omega
    rw [getNode_modifyNode, if_neg hnp]
    exact h.frame id hid hS
  · intro id nd' hid hg
    obtain ⟨nd'', hg'', hpar, hk⟩ := h.stable id nd' hid hg
    by_cases hip : id = p
    · subst hip
      refine ⟨f nd'', ?_, ?_, ?_⟩
      · rw [getNode_modifyNode, if_pos rfl, hg'']
        rfl
      · rw [(hpf nd'').1, hpar]
      · rw [(hpf nd'').2, hk]
    · exact ⟨nd'', by rw [getNode_modifyNode, if_neg hip]; exact hg'', hpar, hk⟩
  · intro id hid hg
    have hab := h.absent id hid hg
    by_cases hip : id = p
    · subst hip
      rw [getNode_modifyNode, if_pos rfl, hab]
      rfl
    · rw [getNode_modifyNode, if_neg hip]
      exact hab

theorem Evolves.step_modify_fresh {S : Nat → Prop} {st₀ st : St} (h : Evolves S st₀ st)
    (p : Nat) (f : DomNode → DomNode) (hp : st₀.nextId ≤ p) :
    Evolves S st₀ (modifyNode st p f) := by
  have hne : ∀ id, id < st₀.nextId → ¬ id = p := by
    intro id hid e
    omega
  refine ⟨?_, ?_, ?_, ?_⟩
  · rw [nextId_modifyNode]
    exact h.nextLe
  · intro id hid hS
    rw [getNode_modifyNode, if_neg (hne id hid)]
    exact h.frame id hid hS
  · intro id nd' hid hg
    obtain ⟨nd'', hg'', hpar, hk⟩ := h.stable id nd' hid hg
    exact ⟨nd'', by rw [getNode_modifyNode, if_neg (hne id hid)]; exact hg'', hpar, hk⟩
  · intro id hid hg
    rw [getNode_modifyNode, if_neg (hne id hid)]
    exact h.absent id hid hg

theorem Evolves.step_block {S : Nat → Prop} {st₀ st : St} (h : Evolves S st₀ st)
    (a b : Nat) : Evolves S st₀ (assignNodesSt a b st) := by
  refine ⟨h.nextLe, ?_, ?_, ?_⟩
  · intro id hid hS
    rw [getNode_assignNodesSt]
    exact h.frame id hid hS
  · intro id nd' hid hg
    obtain ⟨nd'', hg'', hpar, hk⟩ := h.stable id nd' hid hg
    exact ⟨nd'', by rw [getNode_assignNodesSt]; exact hg'', hpar, hk⟩
  · intro id hid hg
    rw [getNode_assignNodesSt]
    exact h.absent id hid hg

theorem Evolves.parentOf_eq {S : Nat → Prop} {st st' : St} (h : Evolves S st st')
    (a : Nat) (ha : a < st.nextId) : parentOf st' a = parentOf st a := by
  cases hg : getNode st a with
  | some nd =>
      obtain ⟨nd', hg', hpar, _⟩ := h.stable a nd ha hg
      simp [parentOf, hg, hg', hpar]
  | none =>
      simp [parentOf, hg, h.absent a ha hg]

theorem Evolves.step_set_attribute {S : Nat → Prop} {st₀ st : St} (h : Evolves S st₀ st)
    (eid : Nat) (k : String) (v : Value) (heid : S eid ∨ st₀.nextId ≤ eid) :
    Evolves S st₀ (set_attribute eid k v st) :=
  h.step_modify eid _ heid (fun _ => ⟨rfl, rfl⟩)

theorem Evolves.step_addEventListener {S : Nat → Prop} {st₀ st : St} (h : Evolves S st₀ st)
    (eid : Nat) (k : String) (v : Value) (heid : S eid ∨ st₀.nextId ≤ eid) :
    Evolves S st₀ (addEventListener eid k v st) :=
  h.step_modify eid _ heid (fun _ => ⟨rfl, rfl⟩)

theorem Evolves.step_appendChild {S : Nat → Prop} {st₀ st : St} (h : Evolves S st₀ st)
    (par ch : Nat) (hpar : S par ∨ st₀.nextId ≤ par) (hch : st₀.nextId ≤ ch) :
    Evolves S st₀ (appendChild par ch st) := by
  unfold appendChild
  exact (h.step_modify par (fun nd => { nd with children := nd.children ++ [ch] }) hpar
      fun _ => ⟨rfl, rfl⟩).step_modify_fresh ch (fun nd => { nd with parent := some par }) hch

theorem Evolves.step_append {S : Nat → Prop} {st₀ st : St} (h : Evolves S st₀ st)
    (anchor node : Nat) (hS : ∀ i, parentOf st anchor = some i → S i)
    (hnode : st₀.nextId ≤ node) :
    Evolves S st₀ (append anchor node st) := by
  unfold append
  cases hp : parentOf st anchor with
  | none =>
      unfold parentOf at hp
      rw [hp]
      exact h
  | some p =>
      have hSp : S p := hS p hp
      unfold parentOf at hp
      rw [hp]
      exact (h.step_modify p
          (fun nd => { nd with children := insertBeforeList anchor node nd.children })
          (Or.inl hSp) fun _ => ⟨rfl, rfl⟩).step_modify_fresh node
        (fun nd => { nd with parent := some p }) hnode

theorem Evolves.step_attrFold {S : Nat → Prop} {st₀ : St} (eid : Nat)
    (heid : S eid ∨ st₀.nextId ≤ eid) :
    ∀ (l : Obj) (st : St), Evolves S st₀ st →
      Evolves S st₀
        (l.foldl (fun s kv => if isNullish kv.2 then s else set_attribute eid kv.1 kv.2 s) st) := by
  intro l
  induction l with
  | nil => intro st h; exact h
  | cons kv rest ih =>
      intro st h
      simp only [List.foldl_cons]
      apply ih
      by_cases hn : isNullish kv.2 = true
      · rw [if_pos hn]; exact h
      · rw [if_neg hn]
        exact h.step_set_attribute eid kv.1 kv.2 heid

theorem Evolves.step_eventFold {S : Nat → Prop} {st₀ : St} (eid : Nat)
    (heid : S eid ∨ st₀.nextId ≤ eid) :
    ∀ (l : Obj) (st : St), Evolves S st₀ st →
      Evolves S st₀ (l.foldl (fun s kv => addEventListener eid kv.1 kv.2 s) st) := by
  intro l
  induction l with
  | nil => intro st h; exact h
  | cons kv rest ih =>
      intro st h
      simp only [List.foldl_cons]
      exact ih _ (h.step_addEventListener eid kv.1 kv.2 heid)

theorem Evolves.step_sub {S S' : Nat → Prop} {st₀ st st' : St} (h : Evolves S st₀ st)
    (h' : Evolves S' st st') (hsub : ∀ i, i < st₀.nextId → S' i → S i) :
    Evolves S st₀ st' := by
  refine ⟨le_trans h.nextLe h'.nextLe, ?_, ?_, ?_⟩
  · intro id hid hS
    have hid' : id < st.nextId := lt_of_lt_of_le hid h.nextLe
    rw [h'.frame id hid' fun hS' => hS (hsub id hid hS')]
    exact h.frame id hid hS
  · intro id nd hid hg
    obtain ⟨nd1, hg1, hp1, hk1⟩ := h.stable id nd hid hg
    obtain ⟨nd2, hg2, hp2, hk2⟩ := h'.stable id nd1 (lt_of_lt_of_le hid h.nextLe) hg1
    exact ⟨nd2, hg2, by rw [hp2, hp1], by rw [hk2, hk1]⟩
  · intro id hid hg
    exact h'.absent id (lt_of_lt_of_le hid h.nextLe) (h.absent id hid hg)

theorem attach_all {α : Type} (l : List α) (f : α → Bool) :
    (l.attach.all fun x => f x.1) = l.all f := by
  rw [Bool.eq_iff_iff]
  simp only [List.all_eq_true, List.mem_attach, true_implies]
  constructor
  · intro h y hy
    exact h ⟨y, hy⟩
  · intro h x
    exact h x.1 x.2

theorem valueNoNode_arr (vs : List Value) :
    valueNoNode (.vArr vs) = listNoNode vs := by
  rw [valueNoNode, attach_all]
  rfl

theorem valueNoNode_elementWrapper (tag : String) (props : Obj) :
    valueNoNode (.vClosure (.elementWrapper tag props)) = objNoNode props := by
  rw [valueNoNode]
  exact attach_all props fun y => valueNoNode y.2

theorem valueNoNode_componentWrapper (t : Value) (props : Obj) :
    valueNoNode (.vClosure (.componentWrapper t props)) = (valueNoNode t && objNoNode props) := by
  rw [valueNoNode]
  exact congrArg (valueNoNode t && ·) (attach_all props fun y => valueNoNode y.2)

theorem valueNoNode_childrenComponent (l : List Value) :
    valueNoNode (.vClosure (.childrenComponent l)) = listNoNode l := by
  rw [valueNoNode, attach_all]
  rfl

theorem lookupObj_noNode (o : Obj) (k : String) (v : Value)
    (ho : objNoNode o = true) (hl : lookupObj o k = some v) : valueNoNode v = true := by
  induction o with
  | nil => simp [lookupObj] at hl
  | cons p rest ih =>
      obtain ⟨k₀, v₀⟩ := p
      simp only [objNoNode, List.all_cons, Bool.and_eq_true] at ho
      by_cases h : k₀ = k
      · rw [lookupObj, if_pos h] at hl
        cases hl
        exact ho.1
      · rw [lookupObj, if_neg h] at hl
        exact ih ho.2 hl

theorem objNoNode_filter (o : Obj) (q : String × Value → Bool)
    (ho : objNoNode o = true) : objNoNode (o.filter q) = true := by
  simp only [objNoNode, List.all_eq_true] at *
  intro p hp
  exact ho p (List.mem_of_mem_filter hp)

theorem objNoNode_spreadMerge (a b : Obj)
    (ha : objNoNode a = true) (hb : objNoNode b = true) :
    objNoNode (spreadMerge a b) = true := by
  unfold spreadMerge
  simp only [objNoNode, List.all_append, Bool.and_eq_true]
  constructor
  · simp only [List.all_eq_true]
    intro p hp
    obtain ⟨q, hq, rfl⟩ := List.mem_map.1 hp
    cases hl : lookupObj b q.1 with
    | some w =>
        simp only [hl]
        exact lookupObj_noNode b q.1 w hb hl
    | none =>
        simp only [hl]
        simp only [objNoNode, List.all_eq_true] at ha
        exact ha q hq
  · exact objNoNode_filter b _ hb

theorem objNoNode_setObj (o : Obj) (k : String) (v : Value)
    (ho : objNoNode o = true) (hv : valueNoNode v = true) :
    objNoNode (setObj o k v) = true := by
  induction o with
  | nil => simp [setObj, objNoNode, hv]
  | cons p rest ih =>
      obtain ⟨k₀, v₀⟩ := p
      simp only [objNoNode, List.all_cons, Bool.and_eq_true] at ho
      by_cases h : k₀ = k
      · rw [setObj, if_pos h]
        simp [objNoNode, hv]
        simpa [objNoNode] using ho.2
      · rw [setObj, if_neg h]
        simp only [objNoNode, List.all_cons, Bool.and_eq_true]
        exact ⟨ho.1, by simpa [objNoNode] using ih ho.2⟩

theorem flattenArr_noNode :
    ∀ (n : Nat) (vs : List Value), sizeOf vs ≤ n → listNoNode vs = true →
      listNoNode (flattenArr vs) = true := by
  intro n
  induction n with
  | zero =>
      intro vs h hn
      cases vs with
      | nil => exact hn
      | cons c rest => simp at h
  | succ n ih =>
      intro vs h hn
      cases vs with
      | nil => exact hn
      | cons c rest =>
          simp only [listNoNode, List.all_cons, Bool.and_eq_true] at hn
          have hrest : listNoNode (flattenArr rest) = true :=
            ih rest (by simp at h; omega) (by simpa [listNoNode] using hn.2)
          simp only [flattenArr, listNoNode, List.all_append, Bool.and_eq_true]
          refine ⟨?_, by simpa [listNoNode] using hrest⟩
          by_cases hf : isFilteredChild c = true
          · simp [hf]
          · rw [if_neg hf]
            cases c with
            | vArr cs =>
                have hcs : listNoNode cs = true := by
                  have h1 := hn.1
                  rwa [valueNoNode_arr] at h1
                have hsz : sizeOf cs ≤ n := by simp at h; omega
                have hres := ih cs hsz hcs
                have heq : flattenChildren (Value.vArr cs) = flattenArr cs := by
                  simp [flattenChildren]
                rw [heq]
                simpa [listNoNode] using hres
            | vNull => simp [hn.1]
            | vUndefined => simp [hn.1]
            | vBool b => simp [hn.1]
            | vStr s => simp [hn.1]
            | vNum m => simp [hn.1]
            | vNode id => simp [hn.1]
            | vClosure c' => simp [hn.1]
            | vFun a => simp [hn.1]

theorem flattenChildren_noNode (v : Value) (hv : valueNoNode v = true) :
    listNoNode (flattenChildren v) = true := by
  cases v with
  | vArr vs =>
      have : flattenChildren (Value.vArr vs) = flattenArr vs := by simp [flattenChildren]
      rw [this]
      exact flattenArr_noNode (sizeOf vs) vs le_rfl (by rwa [valueNoNode_arr] at hv)
  | vNull => simp [flattenChildren, isFilteredChild, listNoNode]
  | vUndefined => simp [flattenChildren, isFilteredChild, listNoNode]
  | vBool b => cases b <;> simp [flattenChildren, isFilteredChild, listNoNode, hv]
  | vStr s => simp [flattenChildren, isFilteredChild, listNoNode, hv]
  | vNum n => simp [flattenChildren, isFilteredChild, listNoNode, hv]
  | vNode id => simp [valueNoNode] at hv
  | vClosure c => simp [flattenChildren, isFilteredChild, listNoNode, hv]
  | vFun a => simp [flattenChildren, isFilteredChild, listNoNode, hv]

theorem componentChildren_noNode (raw : Obj) (h : objNoNode raw = true) :
    valueNoNode (.vClosure (componentChildren raw)) = true := by
  cases hl : lookupObj raw "children" with
  | none =>
      simp only [componentChildren, hl]
      rw [valueNoNode_childrenComponent]
      simp [flattenChildren, flattenArr, listNoNode]
  | some cv =>
      have hcv : valueNoNode cv = true := lookupObj_noNode raw "children" cv h hl
      by_cases ht : truthy cv = true
      · simp only [componentChildren, hl, if_pos ht]
        rw [valueNoNode_childrenComponent]
        cases cv with
        | vArr vs =>
            apply flattenChildren_noNode
            show valueNoNode (.vArr vs) = true
            exact hcv
        | vNull => simp [truthy] at ht
        | vUndefined => simp [truthy] at ht
        | vBool b =>
            apply flattenChildren_noNode
            show valueNoNode (.vArr [.vBool b]) = true
            rw [valueNoNode_arr]
            simp [listNoNode, hcv]
        | vStr str =>
            apply flattenChildren_noNode
            show valueNoNode (.vArr [.vStr str]) = true
            rw [valueNoNode_arr]
            simp [listNoNode, hcv]
        | vNum n =>
            apply flattenChildren_noNode
            show valueNoNode (.vArr [.vNum n]) = true
            rw [valueNoNode_arr]
            simp [listNoNode, hcv]
        | vNode id => simp [valueNoNode] at hcv
        | vClosure c =>
            apply flattenChildren_noNode
            show valueNoNode (.vArr [.vClosure c]) = true
            rw [valueNoNode_arr]
            simp [listNoNode, hcv]
        | vFun a =>
            apply flattenChildren_noNode
            show valueNoNode (.vArr [.vFun a]) = true
            rw [valueNoNode_arr]
            simp [listNoNode, hcv]
      · simp only [componentChildren, hl, if_neg ht]
        rw [valueNoNode_childrenComponent]
        simp [flattenChildren, flattenArr, listNoNode]

theorem attrFold_nextId (eid : Nat) :
    ∀ (l : Obj) (st : St),
      (l.foldl (fun s kv => if isNullish kv.2 then s else set_attribute eid kv.1 kv.2 s) st).nextId
        = st.nextId := by
  intro l
  induction l with
  | nil => intro st; rfl
  | cons kv rest ih =>
      intro st
      simp only [List.foldl_cons]
      rw [ih]
      by_cases hn : isNullish kv.2 = true
      · rw [if_pos hn]
      · rw [if_neg hn]; rfl

theorem eventFold_nextId (eid : Nat) :
    ∀ (l : Obj) (st : St),
      (l.foldl (fun s kv => addEventListener eid kv.1 kv.2 s) st).nextId = st.nextId := by
  intro l
  induction l with
  | nil => intro st; rfl
  | cons kv rest ih =>
      intro st
      simp only [List.foldl_cons]
      rw [ih]
      rfl

theorem append_nextId (anchor node : Nat) (st : St) :
    (append anchor node st).nextId = st.nextId := by
  unfold append
  cases (getNode st anchor).bind (·.parent) <;> rfl

theorem actNoNode_call_of (c : Closure) (anchor : Nat) (o : Obj)
    (hc : valueNoNode (.vClosure c) = true) (ho : objNoNode o = true) :
    actNoNode (.call c anchor o) = true := by
  cases c with
  | elementWrapper tg pr =>
      rw [valueNoNode_elementWrapper] at hc
      simp only [actNoNode, Bool.and_eq_true]
      exact ⟨hc, ho⟩
  | componentWrapper t2 pr =>
      rw [valueNoNode_componentWrapper] at hc
      rw [Bool.and_eq_true] at hc
      simp only [actNoNode, Bool.and_eq_true]
      exact ⟨⟨hc.1, hc.2⟩, ho⟩
  | childrenComponent l =>
      rw [valueNoNode_childrenComponent] at hc
      exact hc

theorem processProps_third (props : Obj) :
    (processProps props).2.2 = .childrenComponent (flattenChildren
      (match lookupObj props "children" with
       | none => .vArr []
       | some .vUndefined => .vArr []
       | some v => v)) := rfl

theorem processProps_children_noNode (props : Obj) (h : objNoNode props = true) :
    valueNoNode (.vClosure (processProps props).2.2) = true := by
  rw [processProps_third, valueNoNode_childrenComponent]
  cases hl : lookupObj props "children" with
  | none => simp [flattenChildren, flattenArr, listNoNode]
  | some cv =>
      have hcv : valueNoNode cv = true := lookupObj_noNode props "children" cv h hl
      cases cv with
      | vUndefined =>
          show listNoNode (flattenChildren (.vArr [])) = true
          simp [flattenChildren, flattenArr, listNoNode]
      | vNull => exact flattenChildren_noNode _ hcv
      | vBool b => exact flattenChildren_noNode _ hcv
      | vStr s => exact flattenChildren_noNode _ hcv
      | vNum n => exact flattenChildren_noNode _ hcv
      | vArr vs => exact flattenChildren_noNode _ hcv
      | vNode id => simp [valueNoNode] at hcv
      | vClosure c => exact flattenChildren_noNode _ hcv
      | vFun a => exact flattenChildren_noNode _ hcv

theorem run_evolves :
    ∀ (fuel : Nat) (t : Act) (st st' : St),
      actAnchor t < st.nextId → actNoNode t = true →
      run fuel t st = some st' →
      Evolves (fun i => parentOf st (actAnchor t) = some i) st st' := by
  intro fuel
  induction fuel with
  | zero =>
      intro t st st' _ _ hrun
      exact absurd hrun (by simp [run])
  | succ fuel ih =>
      intro t st st' hanch hnn hrun
      cases t with
      | call c anchor wrapperProps =>
          cases c with
          | childrenComponent flat =>
              have hstep : run (Nat.succ fuel) (.call (.childrenComponent flat) anchor wrapperProps) st
                  = run fuel (.rlist flat anchor none none) st := rfl
              rw [hstep] at hrun
              exact ih (.rlist flat anchor none none) st st' hanch hnn hrun
          | componentWrapper ty props =>
              simp only [actNoNode, Bool.and_eq_true] at hnn
              cases ty with
              | vClosure c' =>
                  have har : ¬ arityOf (.vClosure c') = 1 := by cases c' <;> simp [arityOf]
                  have hstep : run (Nat.succ fuel)
                      (.call (.componentWrapper (.vClosure c') props) anchor wrapperProps) st
                      = if arityOf (.vClosure c') = 1 then some st
                        else run fuel (.call c' anchor
                          (setObj (spreadMerge props wrapperProps) "children"
                            (.vClosure (componentChildren (spreadMerge props wrapperProps))))) st := rfl
                  rw [hstep, if_neg har] at hrun
                  have hmerge : objNoNode (spreadMerge props wrapperProps) = true :=
                    objNoNode_spreadMerge _ _ hnn.1.2 hnn.2
                  have hproc : objNoNode (setObj (spreadMerge props wrapperProps) "children"
                      (.vClosure (componentChildren (spreadMerge props wrapperProps)))) = true :=
                    objNoNode_setObj _ _ _ hmerge (componentChildren_noNode _ hmerge)
                  have hnn' := actNoNode_call_of c' anchor _ hnn.1.1 hproc
                  exact ih (.call c' anchor
                    (setObj (spreadMerge props wrapperProps) "children"
                      (.vClosure (componentChildren (spreadMerge props wrapperProps)))))
                    st st' hanch hnn' hrun
              | vFun a =>
                  have hstep : run (Nat.succ fuel)
                      (.call (.componentWrapper (.vFun a) props) anchor wrapperProps) st
                      = if arityOf (.vFun a) = 1 then some st else some st := rfl
                  rw [hstep] at hrun
                  by_cases h : arityOf (.vFun a) = 1
                  · rw [if_pos h] at hrun
                    injection hrun with hh
                    rw [← hh]
                    exact Evolves.refl st
                  · rw [if_neg h] at hrun
                    injection hrun with hh
                    rw [← hh]
                    exact Evolves.refl st
              | vNull =>
                  have hstep : run (Nat.succ fuel)
                      (.call (.componentWrapper .vNull props) anchor wrapperProps) st = some st := rfl
                  rw [hstep] at hrun
                  injection hrun with hh
                  rw [← hh]
                  exact Evolves.refl st
              | vUndefined =>
                  have hstep : run (Nat.succ fuel)
                      (.call (.componentWrapper .vUndefined props) anchor wrapperProps) st = some st := rfl
                  rw [hstep] at hrun
                  injection hrun with hh
                  rw [← hh]
                  exact Evolves.refl st
              | vBool b =>
                  have hstep : run (Nat.succ fuel)
                      (.call (.componentWrapper (.vBool b) props) anchor wrapperProps) st = some st := rfl
                  rw [hstep] at hrun
                  injection hrun with hh
                  rw [← hh]
                  exact Evolves.refl st
              | vStr s =>
                  have hstep : run (Nat.succ fuel)
                      (.call (.componentWrapper (.vStr s) props) anchor wrapperProps) st = some st := rfl
                  rw [hstep] at hrun
                  injection hrun with hh
                  rw [← hh]
                  exact Evolves.refl st
              | vNum n =>
                  have hstep : run (Nat.succ fuel)
                      (.call (.componentWrapper (.vNum n) props) anchor wrapperProps) st = some st := rfl
                  rw [hstep] at hrun
                  injection hrun with hh
                  rw [← hh]
                  exact Evolves.refl st
              | vArr vs =>
                  have hstep : run (Nat.succ fuel)
                      (.call (.componentWrapper (.vArr vs) props) anchor wrapperProps) st = some st := rfl
                  rw [hstep] at hrun
                  injection hrun with hh
                  rw [← hh]
                  exact Evolves.refl st
              | vNode id =>
                  have hstep : run (Nat.succ fuel)
                      (.call (.componentWrapper (.vNode id) props) anchor wrapperProps) st = some st := rfl
                  rw [hstep] at hrun
                  injection hrun with hh
                  rw [← hh]
                  exact Evolves.refl st
          | elementWrapper tag props =>
              simp only [actNoNode, Bool.and_eq_true] at hnn
              set pp := processProps (spreadMerge props wrapperProps) with hpp
              set st₁ := (createElement tag st).2 with h1
              set st₂ := pp.1.foldl
                (fun s kv => if isNullish kv.2 then s else set_attribute st.nextId kv.1 kv.2 s) st₁ with h2
              set st₃ := pp.2.1.foldl
                (fun s kv => addEventListener st.nextId kv.1 kv.2 s) st₂ with h3
              set st₄ := (create_anchor st₃).2 with h4
              set st₅ := appendChild st.nextId st₃.nextId st₄ with h5
              have hstep : run (Nat.succ fuel) (.call (.elementWrapper tag props) anchor wrapperProps) st
                  = match run fuel (.call pp.2.2 st₃.nextId []) st₅ with
                    | none => none
                    | some st₆ => some (assignNodesSt st.nextId st.nextId (append anchor st.nextId st₆)) := rfl
              rw [hstep] at hrun
              cases hrec : run fuel (.call pp.2.2 st₃.nextId []) st₅ with
              | none => rw [hrec] at hrun; exact absurd hrun (by simp)
              | some st₆ =>
                  rw [hrec] at hrun
                  injection hrun with hst'
                  have hn3 : st₃.nextId = st.nextId + 1 := by
                    rw [h3, eventFold_nextId, h2, attrFold_nextId, h1]
                    rfl
                  have E1 : Evolves (fun i => parentOf st anchor = some i) st st₁ :=
                    (Evolves.refl st).step_alloc _
                  have E2 : Evolves (fun i => parentOf st anchor = some i) st st₂ :=
                    Evolves.step_attrFold st.nextId (Or.inr le_rfl) pp.1 st₁ E1
                  have E3 : Evolves (fun i => parentOf st anchor = some i) st st₃ :=
                    Evolves.step_eventFold st.nextId (Or.inr le_rfl) pp.2.1 st₂ E2
                  have E4 : Evolves (fun i => parentOf st anchor = some i) st st₄ :=
                    E3.step_alloc _
                  have E5 : Evolves (fun i => parentOf st anchor = some i) st st₅ :=
                    E4.step_appendChild st.nextId st₃.nextId (Or.inr le_rfl) (by omega)
                  have hca_lt : st₃.nextId < st₅.nextId := by
                    have h5n : st₅.nextId = st₃.nextId + 1 := by
                      rw [h5]
                      show st₄.nextId = st₃.nextId + 1
                      rw [h4]
                      rfl
                    omega
                  have hnn5 : actNoNode (.call pp.2.2 st₃.nextId []) = true := by
                    apply actNoNode_call_of
                    · rw [hpp]
                      exact processProps_children_noNode _
                        (objNoNode_spreadMerge _ _ hnn.1 hnn.2)
                    · rfl
                  have hrecE : Evolves (fun i => parentOf st₅ st₃.nextId = some i) st₅ st₆ :=
                    ih (.call pp.2.2 st₃.nextId []) st₅ st₆ hca_lt hnn5 hrec
                  have hg4 : getNode st₄ st₃.nextId
                      = some { kind := .text "", attrs := [], events := [], children := [],
                               parent := none } := by
                    rw [h4]
                    show getNode (allocNode _ st₃).2 st₃.nextId = _
                    rw [getNode_alloc, if_pos rfl]
                  have hne : ¬ st₃.nextId = st.nextId := by omega
                  have hpca : parentOf st₅ st₃.nextId = some st.nextId := by
                    have hg5 : getNode st₅ st₃.nextId
                        = some { kind := .text "", attrs := [], events := [], children := [],
                                 parent := some st.nextId } := by
                      rw [h5]
                      show getNode (appendChild st.nextId st₃.nextId st₄) st₃.nextId = _
                      unfold appendChild
                      rw [getNode_modifyNode, if_pos rfl, getNode_modifyNode, if_neg hne, hg4]
                      rfl
                    unfold parentOf
                    rw [hg5]
                    rfl
                  have E6 : Evolves (fun i => parentOf st anchor = some i) st st₆ := by
                    apply E5.step_sub hrecE
                    intro i hi hSi
                    rw [hpca] at hSi
                    injection hSi with he
                    omega
                  have E7 : Evolves (fun i => parentOf st anchor = some i) st
                      (append anchor st.nextId st₆) := by
                    apply E6.step_append anchor st.nextId
                    · intro i hpi
                      rw [E6.parentOf_eq anchor hanch] at hpi
                      exact hpi
                    · exact le_rfl
                  rw [← hst']
                  exact E7.step_block st.nextId st.nextId
      | rlist children anchor first last =>
          cases children with
          | nil =>
              cases first with
              | none =>
                  cases last with
                  | none =>
                      have hstep : run (Nat.succ fuel) (.rlist [] anchor none none) st
                          = some st := rfl
                      rw [hstep] at hrun
                      injection hrun with h
                      rw [← h]
                      exact Evolves.refl st
                  | some l =>
                      have hstep : run (Nat.succ fuel) (.rlist [] anchor none (some l)) st
                          = some st := rfl
                      rw [hstep] at hrun
                      injection hrun with h
                      rw [← h]
                      exact Evolves.refl st
              | some f =>
                  cases last with
                  | none =>
                      have hstep : run (Nat.succ fuel) (.rlist [] anchor (some f) none) st
                          = some st := rfl
                      rw [hstep] at hrun
                      injection hrun with h
                      rw [← h]
                      exact Evolves.refl st
                  | some l =>
                      have hstep : run (Nat.succ fuel) (.rlist [] anchor (some f) (some l)) st
                          = some (assignNodesSt f l st) := rfl
                      rw [hstep] at hrun
                      injection hrun with h
                      rw [← h]
                      exact (Evolves.refl st).step_block f l
          | cons child rest =>
              simp only [actNoNode, listNoNode, List.all_cons, Bool.and_eq_true] at hnn
              cases child with
              | vNull =>
                  exact ih (.rlist rest anchor first last) st st' hanch hnn.2 hrun
              | vUndefined =>
                  exact ih (.rlist rest anchor first last) st st' hanch hnn.2 hrun
              | vBool b =>
                  exact ih (.rlist rest anchor first last) st st' hanch hnn.2 hrun
              | vArr vs =>
                  exact ih (.rlist rest anchor first last) st st' hanch hnn.2 hrun
              | vNode id =>
                  simp [valueNoNode] at hnn
              | vStr s =>
                  have hstep : run (Nat.succ fuel) (.rlist (.vStr s :: rest) anchor first last) st
                      = run fuel (.rlist rest anchor (some (first.getD st.nextId)) (some st.nextId))
                          (append anchor st.nextId (create_text s st).2) := rfl
                  rw [hstep] at hrun
                  have E1 : Evolves (fun i => parentOf st anchor = some i) st (create_text s st).2 :=
                    (Evolves.refl st).step_alloc _
                  have E2 : Evolves (fun i => parentOf st anchor = some i) st
                      (append anchor st.nextId (create_text s st).2) := by
                    apply E1.step_append anchor st.nextId
                    · intro i hpi
                      rw [E1.parentOf_eq anchor hanch] at hpi
                      exact hpi
                    · exact le_rfl
                  have hanch' : anchor < (append anchor st.nextId (create_text s st).2).nextId :=
                    lt_of_lt_of_le hanch E2.nextLe
                  have hrecE : Evolves
                      (fun i => parentOf (append anchor st.nextId (create_text s st).2) anchor = some i)
                      (append anchor st.nextId (create_text s st).2) st' :=
                    ih (.rlist rest anchor (some (first.getD st.nextId)) (some st.nextId))
                      _ st' hanch' hnn.2 hrun
                  apply E2.step_sub hrecE
                  intro i hi hSi
                  rw [E2.parentOf_eq anchor hanch] at hSi
                  exact hSi
              | vNum n =>
                  have hstep : run (Nat.succ fuel) (.rlist (.vNum n :: rest) anchor first last) st
                      = run fuel (.rlist rest anchor (some (first.getD st.nextId)) (some st.nextId))
                          (append anchor st.nextId (create_text (toString n) st).2) := rfl
                  rw [hstep] at hrun
                  have E1 : Evolves (fun i => parentOf st anchor = some i) st
                      (create_text (toString n) st).2 :=
                    (Evolves.refl st).step_alloc _
                  have E2 : Evolves (fun i => parentOf st anchor = some i) st
                      (append anchor st.nextId (create_text (toString n) st).2) := by
                    apply E1.step_append anchor st.nextId
                    · intro i hpi
                      rw [E1.parentOf_eq anchor hanch] at hpi
                      exact hpi
                    · exact le_rfl
                  have hanch' : anchor
                      < (append anchor st.nextId (create_text (toString n) st).2).nextId :=
                    lt_of_lt_of_le hanch E2.nextLe
                  have hrecE : Evolves
                      (fun i => parentOf (append anchor st.nextId (create_text (toString n) st).2)
                        anchor = some i)
                      (append anchor st.nextId (create_text (toString n) st).2) st' :=
                    ih (.rlist rest anchor (some (first.getD st.nextId)) (some st.nextId))
                      _ st' hanch' hnn.2 hrun
                  apply E2.step_sub hrecE
                  intro i hi hSi
                  rw [E2.parentOf_eq anchor hanch] at hSi
                  exact hSi
              | vFun a =>
                  have hstep : run (Nat.succ fuel) (.rlist (.vFun a :: rest) anchor first last) st
                      = run fuel (.rlist rest anchor (some (first.getD st.nextId)) (some st.nextId))
                          (append anchor st.nextId (create_anchor st).2) := rfl
                  rw [hstep] at hrun
                  have E1 : Evolves (fun i => parentOf st anchor = some i) st (create_anchor st).2 :=
                    (Evolves.refl st).step_alloc _
                  have E2 : Evolves (fun i => parentOf st anchor = some i) st
                      (append anchor st.nextId (create_anchor st).2) := by
                    apply E1.step_append anchor st.nextId
                    · intro i hpi
                      rw [E1.parentOf_eq anchor hanch] at hpi
                      exact hpi
                    · exact le_rfl
                  have hanch' : anchor < (append anchor st.nextId (create_anchor st).2).nextId :=
                    lt_of_lt_of_le hanch E2.nextLe
                  have hrecE : Evolves
                      (fun i => parentOf (append anchor st.nextId (create_anchor st).2) anchor = some i)
                      (append anchor st.nextId (create_anchor st).2) st' :=
                    ih (.rlist rest anchor (some (first.getD st.nextId)) (some st.nextId))
                      _ st' hanch' hnn.2 hrun
                  apply E2.step_sub hrecE
                  intro i hi hSi
                  rw [E2.parentOf_eq anchor hanch] at hSi
                  exact hSi
              | vClosure c =>
                  set st₁ := (create_anchor st).2 with h1
                  set st₂ := append anchor st.nextId st₁ with h2
                  have hstep : run (Nat.succ fuel) (.rlist (.vClosure c :: rest) anchor first last) st
                      = match run fuel (.call c st.nextId []) st₂ with
                        | none => none
                        | some st₃ =>
                            run fuel (.rlist rest anchor (some (first.getD st.nextId))
                              (some st.nextId)) st₃ := rfl
                  rw [hstep] at hrun
                  cases hrec : run fuel (.call c st.nextId []) st₂ with
                  | none => rw [hrec] at hrun; exact absurd hrun (by simp)
                  | some st₃ =>
                      rw [hrec] at hrun
                      have E1 : Evolves (fun i => parentOf st anchor = some i) st st₁ :=
                        (Evolves.refl st).step_alloc _
                      have E2 : Evolves (fun i => parentOf st anchor = some i) st st₂ := by
                        rw [h2]
                        apply E1.step_append anchor st.nextId
                        · intro i hpi
                          rw [E1.parentOf_eq anchor hanch] at hpi
                          exact hpi
                        · exact le_rfl
                      have hn2 : st₂.nextId = st.nextId + 1 := by
                        rw [h2, append_nextId, h1]
                        rfl
                      have hca_lt : st.nextId < st₂.nextId := by omega
                      have hnnc : actNoNode (.call c st.nextId []) = true :=
                        actNoNode_call_of c st.nextId [] hnn.1 rfl
                      have hrecE : Evolves (fun i => parentOf st₂ st.nextId = some i) st₂ st₃ :=
                        ih (.call c st.nextId []) st₂ st₃ hca_lt hnnc hrec
                      have hg1 : getNode st₁ st.nextId
                          = some { kind := .text "", attrs := [], events := [], children := [],
                                   parent := none } := by
                        rw [h1]
                        show getNode (allocNode _ st).2 st.nextId = _
                        rw [getNode_alloc, if_pos rfl]
                      have E3 : Evolves (fun i => parentOf st anchor = some i) st st₃ := by
                        apply E2.step_sub hrecE
                        intro i hi hSi
                        cases hp : parentOf st anchor with
                        | none =>
                            have hp1 : parentOf st₁ anchor = none := by
                              rw [E1.parentOf_eq anchor hanch, hp]
                            have hst2 : st₂ = st₁ := by
                              rw [h2]
                              unfold append
                              unfold parentOf at hp1
                              rw [hp1]
                            rw [hst2] at hSi
                            have hSi' : (getNode st₁ st.nextId).bind (·.parent) = some i := hSi
                            rw [hg1] at hSi'
                            simp at hSi'
                        | some p =>
                            have hp1 : parentOf st₁ anchor = some p := by
                              rw [E1.parentOf_eq anchor hanch, hp]
                            have hg2 : ∃ nd, getNode st₂ st.nextId = some nd ∧ nd.parent = some p := by
                              rw [h2]
                              unfold append
                              unfold parentOf at hp1
                              rw [hp1]
                              rw [getNode_modifyNode, if_pos rfl]
                              rw [getNode_modifyNode]
                              by_cases hpe : st.nextId = p
                              · rw [if_pos hpe, ← hpe, hg1]
                                exact ⟨_, rfl, rfl⟩
                              · rw [if_neg hpe, hg1]
                                exact ⟨_, rfl, rfl⟩
                            obtain ⟨nd, hnd, hndp⟩ := hg2
                            have hSi' : (getNode st₂ st.nextId).bind (·.parent) = some i := hSi
                            rw [hnd] at hSi'
                            have hSi'' : nd.parent = some i := hSi'
                            rw [hndp] at hSi''
                            injection hSi'' with he
                            rw [he]
                      have hanch3 : anchor < st₃.nextId :=
                        lt_of_lt_of_le hanch E3.nextLe
                      have hrecE2 : Evolves (fun i => parentOf st₃ anchor = some i) st₃ st' :=
                        ih (.rlist rest anchor (some (first.getD st.nextId)) (some st.nextId))
                          st₃ st' hanch3 hnn.2 hrun
                      apply E3.step_sub hrecE2
                      intro i hi hSi
                      rw [E3.parentOf_eq anchor hanch] at hSi
                      exact hSi

theorem insertBeforeList_spec (target new_ : Nat) :
    ∀ (l : List Nat), target ∈ l →
      ∃ l1 l2, l = l1 ++ target :: l2 ∧ target ∉ l1 ∧
        insertBeforeList target new_ l = l1 ++ new_ :: target :: l2 := by
  intro l
  induction l with
  | nil => intro h; simp at h
  | cons x xs ih =>
      intro hmem
      by_cases hx : x = target
      · subst hx
        exact ⟨[], xs, rfl, by simp, by simp [insertBeforeList]⟩
      · have hmem' : target ∈ xs := by
          rcases List.mem_cons.1 hmem with h | h
          · exact absurd h.symm hx
          · exact h
        obtain ⟨l1, l2, heq, hnot, hins⟩ := ih hmem'
        refine ⟨x :: l1, l2, by rw [heq]; rfl, ?_, ?_⟩
        · intro hc
          rcases List.mem_cons.1 hc with h | h
          · exact hx h.symm
          · exact hnot h
        · rw [insertBeforeList, if_neg hx, hins]
          rfl

theorem assign_nodes_isSome (a b : Nat) (blk : Blk) :
    (assign_nodes a b blk).s.isSome = true := by
  obtain ⟨bs⟩ := blk
  cases bs with
  | none => rfl
  | some sp =>
      obtain ⟨sps, spe⟩ := sp
      cases sps with
      | none => rfl
      | some x => rfl

theorem append_block (anchor node : Nat) (st : St) :
    (append anchor node st).block = st.block := by
  unfold append
  cases (getNode st anchor).bind (·.parent) <;> rfl

/-- C1 counterexample: running the claim's own example
`jsx('div', {className:'x', children:['a', jsx('span', {children:'b'})]})`
against a real anchor (node 1, inside root node 0) with the span initially
unset ends with the render-context span equal to `(8, 8)` — node 8 being the
text node `"b"` inside the `<span>` — and not `(2, 2)`, the created `<div>`
element, as the claim requires: `assign_nodes` is first-writer-wins and the
innermost children renderer writes first. -/
theorem c1_counterexample :
    exRes.map (fun s => s.block.s) = some (some { start := some 8, stop := some 8 }) ∧
    exRes.map (fun s => (getNode s 8).map (·.kind)) = some (some (.text "b")) ∧
    exRes.map (fun s => (getNode s 2).map (·.kind)) = some (some (.element "div" .html)) ∧
    exRes.map (fun s => s.block.s) ≠ some (some { start := some 2, stop := some 2 }) := by
  refine ⟨rfl, rfl, rfl, ?_⟩
  intro h
  rw [show exRes.map (fun s => s.block.s)
        = some (some { start := some 8, stop := some 8 }) from rfl] at h
  simp at h

/-- C1 amended.  For every invocation of an element wrapper produced by
`jsx(tag, props)` against an attached anchor (anchor and its parent exist in
the state, and the props carry no raw DOM-node references): after the wrapper
returns, the created element — carrying the tag and its namespace — has been
inserted immediately before the caller's anchor in the anchor's parent, and
the render context's span has been written (it is set afterwards).  But the
span is NOT in general `(element, element)`: `assign_nodes` is
first-writer-wins and the element's own `assign_nodes(element, element)` runs
last, after the children have rendered, so any span written while rendering
the children wins.  In the claim's example the span ends up `(textB, textB)`
where textB is the text node `"b"` inside the inner `<span>` (ids: 2 = div,
4 = text "a", 6 = span, 8 = text "b"; 3, 5, 7 are the empty-text anchors). -/
theorem c1_amended_element_wrapper :
    (∀ (fuel : Nat) (tag : String) (props wrapperProps : Obj) (anchor p : Nat) (st st' : St),
      anchor < st.nextId → p < st.nextId →
      parentOf st anchor = some p →
      anchor ∈ childrenOf st p →
      objNoNode props = true → objNoNode wrapperProps = true →
      st.block.s = none →
      run fuel (.call (.elementWrapper tag props) anchor wrapperProps) st = some st' →
      (∃ l1 l2, childrenOf st p = l1 ++ anchor :: l2 ∧ anchor ∉ l1 ∧
          childrenOf st' p = l1 ++ st.nextId :: anchor :: l2) ∧
      (∃ nd, getNode st' st.nextId = some nd ∧ nd.kind = .element tag (namespaceOf tag) ∧
          nd.parent = some p) ∧
      st'.block.s.isSome = true) ∧
    (exRes.map (fun s => s.block.s) = some (some { start := some 8, stop := some 8 }) ∧
     exRes.map (fun s => childrenOf s 0) = some [2, 1] ∧
     exRes.map (fun s => (getNode s 2).map (·.kind)) = some (some (.element "div" .html)) ∧
     exRes.map (fun s => (getNode s 2).map (·.attrs)) = some (some [("class", .vStr "x")]) ∧
     exRes.map (fun s => childrenOf s 2) = some [4, 6, 5, 3] ∧
     exRes.map (fun s => (getNode s 4).map (·.kind)) = some (some (.text "a")) ∧
     exRes.map (fun s => (getNode s 6).map (·.kind)) = some (some (.element "span" .html)) ∧
     exRes.map (fun s => childrenOf s 6) = some [8, 7] ∧
     exRes.map (fun s => (getNode s 8).map (·.kind)) = some (some (.text "b"))) := by
  constructor
  · intro fuel tag props wrapperProps anchor p st st' hanch hp_lt hpar hmem hnpr hnwp hblock hrun
    cases fuel with
    | zero => exact absurd hrun (by simp [run])
    | succ fuel =>
        set pp := processProps (spreadMerge props wrapperProps) with hpp
        set st₁ := (createElement tag st).2 with h1
        set st₂ := pp.1.foldl
          (fun s kv => if isNullish kv.2 then s else set_attribute st.nextId kv.1 kv.2 s) st₁ with h2
        set st₃ := pp.2.1.foldl
          (fun s kv => addEventListener st.nextId kv.1 kv.2 s) st₂ with h3
        set st₄ := (create_anchor st₃).2 with h4
        set st₅ := appendChild st.nextId st₃.nextId st₄ with h5
        have hstep : run (Nat.succ fuel) (.call (.elementWrapper tag props) anchor wrapperProps) st
            = match run fuel (.call pp.2.2 st₃.nextId []) st₅ with
              | none => none
              | some st₆ => some (assignNodesSt st.nextId st.nextId (append anchor st.nextId st₆)) := rfl
        rw [hstep] at hrun
        cases hrec : run fuel (.call pp.2.2 st₃.nextId []) st₅ with
        | none => rw [hrec] at hrun; exact absurd hrun (by simp)
        | some st₆ =>
            rw [hrec] at hrun
            injection hrun with hst'
            have hst1n : st₁.nextId = st.nextId + 1 := rfl
            have hn3 : st₃.nextId = st.nextId + 1 := by
              rw [h3, eventFold_nextId, h2, attrFold_nextId, h1]
              rfl
            have h5n : st₅.nextId = st₃.nextId + 1 := by
              rw [h5]
              show st₄.nextId = st₃.nextId + 1
              rw [h4]
              rfl
            have E1 : Evolves (fun _ => False) st st₁ :=
              (Evolves.refl st).step_alloc _
            have E2 : Evolves (fun _ => False) st st₂ :=
              Evolves.step_attrFold st.nextId (Or.inr le_rfl) pp.1 st₁ E1
            have E3 : Evolves (fun _ => False) st st₃ :=
              Evolves.step_eventFold st.nextId (Or.inr le_rfl) pp.2.1 st₂ E2
            have E4 : Evolves (fun _ => False) st st₄ :=
              E3.step_alloc _
            have E5 : Evolves (fun _ => False) st st₅ :=
              E4.step_appendChild st.nextId st₃.nextId (Or.inr le_rfl) (by omega)
            have hca_lt : st₃.nextId < st₅.nextId := by omega
            have hnn5 : actNoNode (.call pp.2.2 st₃.nextId []) = true := by
              apply actNoNode_call_of
              · rw [hpp]
                exact processProps_children_noNode _
                  (objNoNode_spreadMerge _ _ hnpr hnwp)
              · rfl
            have hrecE : Evolves (fun i => parentOf st₅ st₃.nextId = some i) st₅ st₆ :=
              run_evolves fuel (.call pp.2.2 st₃.nextId []) st₅ st₆ hca_lt hnn5 hrec
            have hg4 : getNode st₄ st₃.nextId
                = some { kind := .text "", attrs := [], events := [], children := [],
                         parent := none } := by
              rw [h4]
              show getNode (allocNode _ st₃).2 st₃.nextId = _
              rw [getNode_alloc, if_pos rfl]
            have hne : ¬ st₃.nextId = st.nextId := by omega
            have hpca : parentOf st₅ st₃.nextId = some st.nextId := by
              have hg5 : getNode st₅ st₃.nextId
                  = some { kind := .text "", attrs := [], events := [], children := [],
                           parent := some st.nextId } := by
                rw [h5]
                show getNode (appendChild st.nextId st₃.nextId st₄) st₃.nextId = _
                unfold appendChild
                rw [getNode_modifyNode, if_pos rfl, getNode_modifyNode, if_neg hne, hg4]
                rfl
              unfold parentOf
              rw [hg5]
              rfl
            have E6 : Evolves (fun _ => False) st st₆ := by
              apply E5.step_sub hrecE
              intro i hi hSi
              rw [hpca] at hSi
              injection hSi with he
              omega
            have hgp : getNode st₆ p = getNode st p :=
              E6.frame p hp_lt (fun f => f)
            have hpar6 : parentOf st₆ anchor = some p := by
              rw [E6.parentOf_eq anchor hanch]
              exact hpar
            have hg1e : getNode st₁ st.nextId
                = some { kind := .element tag (namespaceOf tag), attrs := [], events := [],
                         children := [], parent := none } := by
              rw [h1]
              show getNode (allocNode _ st).2 st.nextId = _
              rw [getNode_alloc, if_pos rfl]
            have E15 : Evolves (fun i => i = st.nextId) st₁ st₅ := by
              have e2 : Evolves (fun i => i = st.nextId) st₁ st₂ :=
                @Evolves.step_attrFold (fun i => i = st.nextId) st₁ st.nextId (Or.inl rfl)
                  pp.1 st₁ (Evolves.refl st₁)
              have e3 : Evolves (fun i => i = st.nextId) st₁ st₃ :=
                @Evolves.step_eventFold (fun i => i = st.nextId) st₁ st.nextId (Or.inl rfl)
                  pp.2.1 st₂ e2
              have e4 : Evolves (fun i => i = st.nextId) st₁ st₄ :=
                e3.step_alloc _
              exact e4.step_appendChild st.nextId st₃.nextId (Or.inl rfl) (by omega)
            obtain ⟨nd5, hg5e, hp5, hk5⟩ :=
              E15.stable st.nextId _ (by omega) hg1e
            have heid_lt5 : st.nextId < st₅.nextId := by omega
            obtain ⟨nd6, hg6e, hp6, hk6⟩ := hrecE.stable st.nextId nd5 heid_lt5 hg5e
            have happ : append anchor st.nextId st₆
                = modifyNode (modifyNode st₆ p
                    fun nd => { nd with children := insertBeforeList anchor st.nextId nd.children })
                    st.nextId fun nd => { nd with parent := some p } := by
              unfold append
              unfold parentOf at hpar6
              rw [hpar6]
            have hgetp : ∃ ndp, getNode st p = some ndp := by
              cases hgsp : getNode st p with
              | some ndp => exact ⟨ndp, rfl⟩
              | none =>
                  exfalso
                  unfold childrenOf at hmem
                  rw [hgsp] at hmem
                  simp at hmem
            obtain ⟨ndp, hndp⟩ := hgetp
            have hcp : childrenOf st p = ndp.children := by
              unfold childrenOf
              rw [hndp]
              rfl
            have hpne : ¬ p = st.nextId := by omega
            have heidp : ¬ st.nextId = p := by omega
            obtain ⟨l1, l2, hsplit, hnotin, hins⟩ :=
              insertBeforeList_spec anchor st.nextId (childrenOf st p) hmem
            refine ⟨⟨l1, l2, hsplit, hnotin, ?_⟩, ?_, ?_⟩
            · rw [← hst']
              show childrenOf (assignNodesSt st.nextId st.nextId (append anchor st.nextId st₆)) p
                = l1 ++ st.nextId :: anchor :: l2
              unfold childrenOf
              rw [getNode_assignNodesSt, happ, getNode_modifyNode, if_neg hpne,
                  getNode_modifyNode, if_pos rfl, hgp, hndp]
              show insertBeforeList anchor st.nextId ndp.children = l1 ++ st.nextId :: anchor :: l2
              rw [← hcp, hins]
            · refine ⟨{ nd6 with parent := some p }, ?_, ?_, rfl⟩
              · rw [← hst']
                show getNode (assignNodesSt st.nextId st.nextId (append anchor st.nextId st₆))
                    st.nextId = _
                rw [getNode_assignNodesSt, happ, getNode_modifyNode, if_pos rfl,
                    getNode_modifyNode, if_neg heidp, hg6e]
                rfl
              · show nd6.kind = NodeKind.element tag (namespaceOf tag)
                rw [hk6, hk5]
            · rw [← hst']
              exact assign_nodes_isSome st.nextId st.nextId (append anchor st.nextId st₆).block
  · exact ⟨rfl, rfl, rfl, rfl, rfl, rfl, rfl, rfl, rfl⟩

/-- Witness for C1 at the example input: applying the general statement to the
example invocation shows the div (the first allocated node, id 2) is inserted
immediately before the caller's anchor (id 1) in the root's child list, with
the div's element record present, and the span set. -/
theorem c1_amended_element_wrapper_witness :
    (∃ l1 l2, childrenOf exSt0 0 = l1 ++ 1 :: l2 ∧ 1 ∉ l1 ∧
        childrenOf (exRes.getD exSt0) 0 = l1 ++ 2 :: 1 :: l2) ∧
    (∃ nd, getNode (exRes.getD exSt0) 2 = some nd ∧
        nd.kind = .element "div" (namespaceOf "div") ∧ nd.parent = some 0) ∧
    (exRes.getD exSt0).block.s.isSome = true := by
  have h := c1_amended_element_wrapper.1 20 "div" exProps [] 1 0 exSt0 (exRes.getD exSt0)
    (by decide) (by decide) rfl (by decide)
    (by simp [objNoNode, listNoNode, exProps, exSpanProps, valueNoNode_arr,
          valueNoNode_elementWrapper, valueNoNode])
    rfl rfl rfl
  exact h
